import Mathlib

/-
Verification development for the multi-agent rescue simulation.

This file shallowly embeds the core data model and algorithms of the
repository (grid environment, risk-aware A* search, Bayesian risk model,
task allocation protocols, hybrid coordinator, agent action execution)
as executable Lean definitions, and proves or refutes the testable
properties stated in the specification.

Conventions of the embedding:
  - Python ints are Lean Int; Python floats are Lean rationals (all float
    literals appearing in the source are decimal and are transcribed as the
    exact rational they denote; the verified properties are order/convexity
    facts that are insensitive to this idealization).
  - float("inf") is modeled by the type CostVal := Option Rat with none
    standing for infinity.
  - Python dicts used as number maps are modeled as functions into Option,
    Python sets of coordinates as Finset.
  - Mutating methods become functions returning the updated value (paired
    with the returned Bool for mutators that report success).
-/

/- The toolchain marks the arithmetic of Rat irreducible, which only
restricts unfolding during elaboration; re-enable it so that concrete
runs of the embedded algorithms can be evaluated by decide (kernel
soundness is unaffected: reducibility attributes are elaboration hints). -/
set_option allowUnsafeReducibility true

attribute [semireducible] Rat.add Rat.mul Rat.sub Rat.div Rat.inv Rat.neg Rat.blt

/-- Grid coordinates, as in the source a pair of Python ints. -/
abbrev Pos := Int × Int

/-- Model of a Python float that can be float("inf"): none stands for
infinity, some q for the finite value q. -/
abbrev CostVal := Option ℚ

namespace CostVal

/-- Strict order on costs with none as plus infinity, as Python float
comparison behaves on these values. -/
def lt : CostVal → CostVal → Bool
  | some a, some b => a < b
  | some _, none => true
  | none, _ => false

/-- Python truthiness of such a float: 0.0 is falsy, every other float
including inf is truthy. -/
def pyTruthy : CostVal → Bool
  | some q => q ≠ 0
  | none => true

end CostVal

/-- Embeds manhattan_distance from src/ai/search.py. -/
def manhattan_distance (pos1 pos2 : Pos) : ℚ :=
  ((pos1.1 - pos2.1).natAbs : ℚ) + ((pos1.2 - pos2.2).natAbs : ℚ)

/-! ## Environment (src/core/environment.py) -/

/-- Embeds class Cell: per-cell boolean flags. The terrain_type field is
constant CellType.NORMAL in the source and is omitted. -/
structure Cell where
  x : Int
  y : Int
  has_fire : Bool
  has_flood : Bool
  has_debris : Bool
  has_survivor : Bool
  is_safe_zone : Bool
  explored : Bool
deriving DecidableEq, Repr

/-- Embeds Cell.__init__: all flags start False. -/
def Cell.init (x y : Int) : Cell :=
  { x := x, y := y, has_fire := false, has_flood := false, has_debris := false,
    has_survivor := false, is_safe_zone := false, explored := false }

/-- Embeds Cell.is_passable: not fire and not debris. -/
def Cell.is_passable (c : Cell) : Bool :=
  !c.has_fire && !c.has_debris

/-- Embeds Cell.is_hazardous. -/
def Cell.is_hazardous (c : Cell) : Bool :=
  c.has_fire || c.has_flood || c.has_debris

/-- Embeds class Grid: the 2D cell array (as a function on coordinates)
plus the derived position index sets. -/
structure Grid where
  width : Int
  height : Int
  timestep : Int
  cells : Pos → Cell
  survivor_positions : Finset Pos
  safe_zone_positions : Finset Pos
  fire_positions : Finset Pos
  flood_positions : Finset Pos
  debris_positions : Finset Pos

/-- Embeds Grid.__init__ (the seed parameter only seeds the random module
and has no effect on the state built here). -/
def Grid.init (width height : Int) : Grid :=
  { width := width, height := height, timestep := 0,
    cells := fun p => Cell.init p.1 p.2,
    survivor_positions := ∅, safe_zone_positions := ∅,
    fire_positions := ∅, flood_positions := ∅, debris_positions := ∅ }

/-- Pointwise update of the cell array at one coordinate, the effect of
mutating the Cell object held at that array slot. -/
def updateCell (f : Pos → Cell) (p : Pos) (c : Cell) : Pos → Cell :=
  fun q => if q = p then c else f q

/-- Embeds Grid.is_valid_position. -/
def Grid.is_valid_position (g : Grid) (x y : Int) : Bool :=
  0 ≤ x && x < g.width && 0 ≤ y && y < g.height

/-- Embeds Grid.get_cell: bounds-checked access, none when out of bounds. -/
def Grid.get_cell (g : Grid) (x y : Int) : Option Cell :=
  if g.is_valid_position x y then some (g.cells (x, y)) else none

/-- Embeds Grid.get_neighbors: cardinal directions, then diagonal ones if
requested, filtered to valid positions, in source order. -/
def Grid.get_neighbors (g : Grid) (x y : Int) (diagonal : Bool) : List Pos :=
  let directions : List (Int × Int) :=
    [(-1, 0), (1, 0), (0, -1), (0, 1)] ++
      (if diagonal then [(-1, -1), (-1, 1), (1, -1), (1, 1)] else [])
  (directions.map (fun d => (x + d.1, y + d.2))).filter
    (fun p => g.is_valid_position p.1 p.2)

/-- Embeds Grid.add_fire: fails on missing cells and flooded cells. -/
def Grid.add_fire (g : Grid) (x y : Int) : Bool × Grid :=
  match g.get_cell x y with
  | some cell =>
    if !cell.has_flood then
      (true, { g with
               cells := updateCell g.cells (x, y) ({ cell with has_fire := true })
               fire_positions := insert (x, y) g.fire_positions })
    else (false, g)
  | none => (false, g)

/-- Embeds Grid.remove_fire: clears the flag and discards the position. -/
def Grid.remove_fire (g : Grid) (x y : Int) : Grid :=
  match g.get_cell x y with
  | some cell =>
    if cell.has_fire then
      { g with
        cells := updateCell g.cells (x, y) ({ cell with has_fire := false })
        fire_positions := g.fire_positions.erase (x, y) }
    else g
  | none => g

/-- Embeds Grid.add_flood: extinguishes fire via remove_fire, then sets the
flood flag and records the position. -/
def Grid.add_flood (g : Grid) (x y : Int) : Bool × Grid :=
  match g.get_cell x y with
  | some cell =>
    let g1 := if cell.has_fire then g.remove_fire x y else g
    match g1.get_cell x y with
    | some cell1 =>
      (true, { g1 with
               cells := updateCell g1.cells (x, y) ({ cell1 with has_flood := true })
               flood_positions := insert (x, y) g1.flood_positions })
    | none => (false, g1)
  | none => (false, g)

/-- Embeds Grid.add_debris: fails on survivor or safe-zone cells. -/
def Grid.add_debris (g : Grid) (x y : Int) : Bool × Grid :=
  match g.get_cell x y with
  | some cell =>
    if !cell.has_survivor && !cell.is_safe_zone then
      (true, { g with
               cells := updateCell g.cells (x, y) ({ cell with has_debris := true })
               debris_positions := insert (x, y) g.debris_positions })
    else (false, g)
  | none => (false, g)

/-- Embeds Grid.add_survivor: fails on debris or fire cells. -/
def Grid.add_survivor (g : Grid) (x y : Int) : Bool × Grid :=
  match g.get_cell x y with
  | some cell =>
    if !cell.has_debris && !cell.has_fire then
      (true, { g with
               cells := updateCell g.cells (x, y) ({ cell with has_survivor := true })
               survivor_positions := insert (x, y) g.survivor_positions })
    else (false, g)
  | none => (false, g)

/-- Embeds Grid.add_safe_zone: sets the flag, records the position, and
clears the three hazard flags on the cell. Exactly as in the source, the
hazard position index sets are left untouched by this clearing. -/
def Grid.add_safe_zone (g : Grid) (x y : Int) : Bool × Grid :=
  match g.get_cell x y with
  | some cell =>
    (true, { g with
             cells := updateCell g.cells (x, y)
               ({ cell with
                  is_safe_zone := true
                  has_debris := false
                  has_fire := false
                  has_flood := false })
             safe_zone_positions := insert (x, y) g.safe_zone_positions })
  | none => (false, g)

/-- Embeds Grid.remove_survivor. -/
def Grid.remove_survivor (g : Grid) (x y : Int) : Grid :=
  match g.get_cell x y with
  | some cell =>
    if cell.has_survivor then
      { g with
        cells := updateCell g.cells (x, y) ({ cell with has_survivor := false })
        survivor_positions := g.survivor_positions.erase (x, y) }
    else g
  | none => g

/-! ## Configuration constants (src/utils/config.py), as exact rationals -/

/-- Embeds AIConfig.ASTAR_TERRAIN_PENALTY_DEBRIS = 5.0. -/
def AI_ASTAR_TERRAIN_PENALTY_DEBRIS : ℚ := 5

/-- Embeds AIConfig.ASTAR_TERRAIN_PENALTY_FLOOD = 3.0. -/
def AI_ASTAR_TERRAIN_PENALTY_FLOOD : ℚ := 3

/-- Embeds AIConfig.ASTAR_RISK_PENALTY_MULTIPLIER = 10.0. -/
def AI_ASTAR_RISK_PENALTY_MULTIPLIER : ℚ := 10

/-- Embeds AIConfig.ASTAR_HEURISTIC_RISK_WEIGHT = 1.0. -/
def AI_ASTAR_HEURISTIC_RISK_WEIGHT : ℚ := 1

/-- Embeds AIConfig.BAYESIAN_PRIOR_FIRE = 0.1. -/
def AI_BAYESIAN_PRIOR_FIRE : ℚ := 1/10

/-- Embeds AIConfig.BAYESIAN_PRIOR_FLOOD = 0.1. -/
def AI_BAYESIAN_PRIOR_FLOOD : ℚ := 1/10

/-- Embeds AIConfig.BAYESIAN_PRIOR_COLLAPSE = 0.05. -/
def AI_BAYESIAN_PRIOR_COLLAPSE : ℚ := 1/20

/-- Embeds AIConfig.BAYESIAN_UPDATE_RATE = 0.3. -/
def AI_BAYESIAN_UPDATE_RATE : ℚ := 3/10

/-- Embeds AIConfig.CSP_MAX_SURVIVORS_PER_AGENT = 2. -/
def AI_CSP_MAX_SURVIVORS_PER_AGENT : ℕ := 2

/-- Embeds AIConfig.CSP_RISK_CONSTRAINT_THRESHOLD = 0.65. -/
def AI_CSP_RISK_CONSTRAINT_THRESHOLD : ℚ := 13/20

/-- Embeds AIConfig.CSP_DISTANCE_WEIGHT = 0.6. -/
def AI_CSP_DISTANCE_WEIGHT : ℚ := 3/5

/-- Embeds AIConfig.CSP_RISK_WEIGHT = 0.4. -/
def AI_CSP_RISK_WEIGHT : ℚ := 2/5

/-- Embeds HazardConfig.FIRE_SPREAD_RATE = 0.03. -/
def HAZARD_FIRE_SPREAD_RATE : ℚ := 3/100

/-- Embeds HazardConfig.FIRE_SPREAD_TO_DEBRIS = 0.08. -/
def HAZARD_FIRE_SPREAD_TO_DEBRIS : ℚ := 2/25

/-- Embeds HazardConfig.FLOOD_SPREAD_RATE = 0.03. -/
def HAZARD_FLOOD_SPREAD_RATE : ℚ := 3/100

/-- Embeds HazardConfig.DEBRIS_GENERATION_NEAR_FIRE = 0.01. -/
def HAZARD_DEBRIS_GENERATION_NEAR_FIRE : ℚ := 1/100

/-! ## A* search (src/ai/search.py)

The open set is modeled as a list; popping takes the earliest-inserted
node among those of minimal f_cost, a deterministic refinement of the
binary heap of the source, whose contract is likewise to yield a node of
minimal f_cost (AStarNode.__lt__ compares f_cost only).  The parent
pointer chain of the source is modeled by carrying, in each node, the
reconstructed waypoint list from the start to the node, which is what
_reconstruct_path reads off the chain.  The loop of the source terminates
because every iteration pops one node and nodes are pushed only finitely
often; here the loop is driven by an explicit fuel bound on the number of
iterations, and the theorems either hold for every fuel or exhibit a
sufficient fuel.  All in-repository callers use the default manhattan
heuristic, which is the variant embedded.  The injected terrain and risk
cost functions are typed as finite rationals: the source documents them
as penalties in [0, inf), and the callers return float inf only for
out-of-bounds cells, which the grid neighbor functions never produce. -/

/-- Embeds class AStarNode; f_cost is g + h, and path is the reconstructed
start-to-position waypoint list standing for the parent chain. -/
structure AStarNode where
  position : Pos
  g_cost : ℚ
  h_cost : ℚ
  path : List Pos
deriving DecidableEq, Repr

/-- Embeds AStarNode.f_cost = g_cost + h_cost. -/
def AStarNode.f_cost (n : AStarNode) : ℚ := n.g_cost + n.h_cost

/-- Pop a node of minimal f_cost from the open list (first inserted among
ties), the model of heapq.heappop under AStarNode.__lt__. -/
def popMin : List AStarNode → Option (AStarNode × List AStarNode)
  | [] => none
  | n :: rest =>
    match popMin rest with
    | none => some (n, rest)
    | some (m, rest') =>
      if n.f_cost ≤ m.f_cost then some (n, rest) else some (m, n :: rest')

/-- One step of the neighbor-expansion loop body of astar_search: skip
impassable or closed neighbors, compute the tentative g, and on
improvement record the new g_cost and push a node carrying the
risk-weighted heuristic. -/
def expandNeighbor (goal : Pos) (is_passable : Pos → Bool)
    (get_terrain_cost get_risk_cost : Pos → ℚ) (closed_set : Finset Pos)
    (current : AStarNode) (acc : List AStarNode × (Pos → Option ℚ))
    (neighbor_pos : Pos) : List AStarNode × (Pos → Option ℚ) :=
  let (pushed, g_costs) := acc
  if !is_passable neighbor_pos then acc
  else if neighbor_pos ∈ closed_set then acc
  else
    let step_cost : ℚ := 1
    let terrain_cost := get_terrain_cost neighbor_pos
    let risk_cost := get_risk_cost neighbor_pos
    let tentative_g := current.g_cost + step_cost + terrain_cost + risk_cost
    let improved : Bool :=
      match g_costs neighbor_pos with
      | none => true
      | some old => tentative_g < old
    if improved then
      let base_h := manhattan_distance neighbor_pos goal
      let risk_factor := get_risk_cost neighbor_pos / AI_ASTAR_RISK_PENALTY_MULTIPLIER
      let h_cost := base_h * (1 + AI_ASTAR_HEURISTIC_RISK_WEIGHT * risk_factor)
      let neighbor_node : AStarNode :=
        { position := neighbor_pos, g_cost := tentative_g, h_cost := h_cost,
          path := current.path ++ [neighbor_pos] }
      (pushed ++ [neighbor_node],
       fun p => if p = neighbor_pos then some tentative_g else g_costs p)
    else acc

/-- The main search loop of astar_search: pop the minimal-f node, return
its path and g on reaching the goal, skip already-closed positions, else
close the position and expand its neighbors.  Fuel bounds the number of
iterations; exhaustion yields the no-path result. -/
def astarLoop (goal : Pos) (is_passable : Pos → Bool)
    (get_neighbors : Pos → List Pos) (get_terrain_cost get_risk_cost : Pos → ℚ) :
    ℕ → List AStarNode → Finset Pos → (Pos → Option ℚ) → List Pos × CostVal
  | 0, _, _, _ => ([], none)
  | fuel + 1, open_set, closed_set, g_costs =>
    match popMin open_set with
    | none => ([], none)
    | some (current, rest) =>
      if current.position = goal then (current.path, some current.g_cost)
      else if current.position ∈ closed_set then
        astarLoop goal is_passable get_neighbors get_terrain_cost get_risk_cost
          fuel rest closed_set g_costs
      else
        let closed' := insert current.position closed_set
        let expanded := (get_neighbors current.position).foldl
          (expandNeighbor goal is_passable get_terrain_cost get_risk_cost closed' current)
          ([], g_costs)
        astarLoop goal is_passable get_neighbors get_terrain_cost get_risk_cost
          fuel (rest ++ expanded.1) closed' expanded.2

/-- Embeds astar_search: validate that start and goal are passable, seed
the open set with the start node (g = 0, h = manhattan to goal, g_costs
start = 0), and run the loop.  The pair ([], none) models the
([], float inf) no-path result of the source. -/
def astar_search (fuel : ℕ) (start goal : Pos) (is_passable : Pos → Bool)
    (get_neighbors : Pos → List Pos) (get_terrain_cost get_risk_cost : Pos → ℚ) :
    List Pos × CostVal :=
  if !is_passable start then ([], none)
  else if !is_passable goal then ([], none)
  else
    let start_h := manhattan_distance start goal
    let start_node : AStarNode :=
      { position := start, g_cost := 0, h_cost := start_h, path := [start] }
    astarLoop goal is_passable get_neighbors get_terrain_cost get_risk_cost
      fuel [start_node] ∅ (fun p => if p = start then some 0 else none)

/-- Embeds compute_terrain_cost from src/ai/search.py. -/
def compute_terrain_cost (cell : Cell) : ℚ :=
  if cell.has_debris then AI_ASTAR_TERRAIN_PENALTY_DEBRIS
  else if cell.has_flood then AI_ASTAR_TERRAIN_PENALTY_FLOOD
  else 0

/-- Embeds compute_risk_cost from src/ai/search.py. -/
def compute_risk_cost (risk_value : ℚ) : ℚ :=
  risk_value * AI_ASTAR_RISK_PENALTY_MULTIPLIER

/-- Embeds find_nearest_goal: run astar_search on each candidate goal and
keep the reachable one of minimal cost (first wins ties, as the strict
comparison of the source keeps the incumbent). -/
def find_nearest_goal (fuel : ℕ) (start : Pos) (goals : List Pos)
    (is_passable : Pos → Bool) (get_neighbors : Pos → List Pos)
    (get_terrain_cost get_risk_cost : Pos → ℚ) :
    Option Pos × List Pos × CostVal :=
  goals.foldl
    (fun best goal =>
      let result := astar_search fuel start goal is_passable get_neighbors
        get_terrain_cost get_risk_cost
      if result.1 ≠ [] && CostVal.lt result.2 best.2.2 then (some goal, result.1, result.2)
      else best)
    (none, [], none)

/-- The 4-connected neighbor function a grid of the given dimensions
injects into astar_search (Grid.get_neighbors with diagonal=False, which
depends only on the dimensions). -/
def grid_neighbors (width height : Int) (p : Pos) : List Pos :=
  (Grid.init width height).get_neighbors p.1 p.2 false

/-! ## Bayesian risk model (src/ai/bayesian_risk.py) -/

/-- The risk_type strings accepted by BayesianRiskModel.get_risk. -/
inductive RiskType where
  | fire | flood | collapse | combined
deriving DecidableEq, Repr

/-- Embeds class BayesianRiskModel: the three per-position probability maps
keyed by coordinates, the observation counts, and the priors captured from
the configuration at construction. -/
structure BayesianRiskModel where
  prior_fire : ℚ
  prior_flood : ℚ
  prior_collapse : ℚ
  fire_risk : Pos → Option ℚ
  flood_risk : Pos → Option ℚ
  collapse_risk : Pos → Option ℚ
  observation_count : Pos → Option ℕ

/-- Embeds BayesianRiskModel.__init__: priors from the configuration,
empty maps. -/
def BayesianRiskModel.mkNew : BayesianRiskModel :=
  { prior_fire := AI_BAYESIAN_PRIOR_FIRE
    prior_flood := AI_BAYESIAN_PRIOR_FLOOD
    prior_collapse := AI_BAYESIAN_PRIOR_COLLAPSE
    fire_risk := fun _ => none
    flood_risk := fun _ => none
    collapse_risk := fun _ => none
    observation_count := fun _ => none }

/-- Embeds BayesianRiskModel.initialize_grid: seed every in-range cell with
the priors and a zero observation count. -/
def BayesianRiskModel.initialize_grid (m : BayesianRiskModel) (width height : Int) :
    BayesianRiskModel :=
  let inRange : Pos → Bool := fun p => 0 ≤ p.1 && p.1 < width && 0 ≤ p.2 && p.2 < height
  { m with
    fire_risk := fun p => if inRange p then some m.prior_fire else m.fire_risk p
    flood_risk := fun p => if inRange p then some m.prior_flood else m.flood_risk p
    collapse_risk := fun p => if inRange p then some m.prior_collapse else m.collapse_risk p
    observation_count := fun p => if inRange p then some 0 else m.observation_count p }

/-- Embeds BayesianRiskModel._compute_fire_risk. -/
def BayesianRiskModel.compute_fire_risk (m : BayesianRiskModel) (cell : Cell)
    (neighbors_info : List Cell) : ℚ :=
  if cell.has_fire then 1
  else if cell.has_flood || cell.is_safe_zone then 0
  else
    let num_fire_neighbors := (neighbors_info.filter (fun n => n.has_fire)).length
    let current := (m.fire_risk (cell.x, cell.y)).getD m.prior_fire
    if num_fire_neighbors = 0 then
      current * (1 - AI_BAYESIAN_UPDATE_RATE) + m.prior_fire * AI_BAYESIAN_UPDATE_RATE
    else
      let spread_prob :=
        if cell.has_debris then
          1 - (1 - HAZARD_FIRE_SPREAD_TO_DEBRIS) ^ num_fire_neighbors
        else
          1 - (1 - HAZARD_FIRE_SPREAD_RATE) ^ num_fire_neighbors
      current * (1 - AI_BAYESIAN_UPDATE_RATE) + spread_prob * AI_BAYESIAN_UPDATE_RATE

/-- Embeds BayesianRiskModel._compute_flood_risk. -/
def BayesianRiskModel.compute_flood_risk (m : BayesianRiskModel) (cell : Cell)
    (neighbors_info : List Cell) : ℚ :=
  if cell.has_flood then 1
  else if cell.is_safe_zone then 0
  else
    let num_flood_neighbors := (neighbors_info.filter (fun n => n.has_flood)).length
    let current := (m.flood_risk (cell.x, cell.y)).getD m.prior_flood
    if num_flood_neighbors = 0 then
      current * (1 - AI_BAYESIAN_UPDATE_RATE) + m.prior_flood * AI_BAYESIAN_UPDATE_RATE
    else
      let spread_prob := 1 - (1 - HAZARD_FLOOD_SPREAD_RATE) ^ num_flood_neighbors
      current * (1 - AI_BAYESIAN_UPDATE_RATE) + spread_prob * AI_BAYESIAN_UPDATE_RATE

/-- Embeds BayesianRiskModel._compute_collapse_risk. -/
def BayesianRiskModel.compute_collapse_risk (m : BayesianRiskModel) (cell : Cell)
    (neighbors_info : List Cell) : ℚ :=
  if cell.has_debris then 1
  else if cell.is_safe_zone || cell.has_survivor then 0
  else
    let num_fire_neighbors := (neighbors_info.filter (fun n => n.has_fire)).length
    let current := (m.collapse_risk (cell.x, cell.y)).getD m.prior_collapse
    if num_fire_neighbors = 0 then
      current * (1 - AI_BAYESIAN_UPDATE_RATE) + m.prior_collapse * AI_BAYESIAN_UPDATE_RATE
    else
      let spread_prob := 1 - (1 - HAZARD_DEBRIS_GENERATION_NEAR_FIRE) ^ num_fire_neighbors
      current * (1 - AI_BAYESIAN_UPDATE_RATE) + spread_prob * AI_BAYESIAN_UPDATE_RATE

/-- Embeds BayesianRiskModel.update_from_observation: bump the observation
count and store the three recomputed risks at the observed position. -/
def BayesianRiskModel.update_from_observation (m : BayesianRiskModel) (position : Pos)
    (cell : Cell) (neighbors_info : List Cell) : BayesianRiskModel :=
  let m1 := { m with
    observation_count := fun p =>
      if p = position then some ((m.observation_count position).getD 0 + 1)
      else m.observation_count p }
  let f := m1.compute_fire_risk cell neighbors_info
  let m2 := { m1 with
    fire_risk := fun p => if p = position then some f else m1.fire_risk p }
  let fl := m2.compute_flood_risk cell neighbors_info
  let m3 := { m2 with
    flood_risk := fun p => if p = position then some fl else m2.flood_risk p }
  let c := m3.compute_collapse_risk cell neighbors_info
  { m3 with
    collapse_risk := fun p => if p = position then some c else m3.collapse_risk p }

/-- Embeds BayesianRiskModel.get_risk: stored value or prior, with the
combined risk 1 - (1-fire)(1-flood)(1-collapse). -/
def BayesianRiskModel.get_risk (m : BayesianRiskModel) (position : Pos)
    (risk_type : RiskType) : ℚ :=
  match risk_type with
  | .fire => (m.fire_risk position).getD m.prior_fire
  | .flood => (m.flood_risk position).getD m.prior_flood
  | .collapse => (m.collapse_risk position).getD m.prior_collapse
  | .combined =>
    let fire := (m.fire_risk position).getD m.prior_fire
    let flood := (m.flood_risk position).getD m.prior_flood
    let collapse := (m.collapse_risk position).getD m.prior_collapse
    1 - (1 - fire) * (1 - flood) * (1 - collapse)

/-- A sequence of update_from_observation calls applied in order. -/
def BayesianRiskModel.applyObservations (m : BayesianRiskModel)
    (obs : List (Pos × Cell × List Cell)) : BayesianRiskModel :=
  obs.foldl (fun acc o => acc.update_from_observation o.1 o.2.1 o.2.2) m

/-! ## Task allocation (src/ai/csp_allocator.py, src/ai/communication.py)

Agent identifiers are Python strings used only as opaque dictionary keys;
the embedding is generic in their type.  A Python dict of agents is
modeled as an association list in insertion order (dict iteration order).
The returned allocation dict is modeled as a function from agent id to
assigned list, empty for agents the dict does not mention.  Python
list.sort is a stable ascending sort by the score key, which is exactly
List.insertionSort by that key.  The allocator instance fields are the
configuration constants captured in CSPAllocator.__init__. -/

/-- The agent type strings from AgentType in src/utils/config.py. -/
inductive AgentTy where
  | EXPLORER | RESCUE | SUPPORT
deriving DecidableEq, Repr

/-- The fields of the per-agent info dicts that allocation reads:
position and type. -/
structure AgentInfo where
  position : Pos
  type : AgentTy
deriving DecidableEq, Repr

/-- Embeds dataclass Assignment of src/ai/csp_allocator.py. -/
structure Assignment (α : Type) where
  agent_id : α
  survivor_pos : Pos
  distance : ℚ
  risk : ℚ
  priority : ℚ
deriving DecidableEq

/-- Embeds dataclass TaskBid of src/ai/communication.py. -/
structure TaskBid (α : Type) where
  agent_id : α
  task_id : Pos
  cost : ℚ
  capability : ℚ
  risk : ℚ
  expected_time : Int
  current_load : ℕ
deriving DecidableEq

/-- Embeds TaskBid.score: cost_weight*cost + risk_weight*risk*100 plus the
load penalty of 0.1 per currently assigned task. -/
def TaskBid.score {α : Type} (b : TaskBid α) (cost_weight risk_weight : ℚ) : ℚ :=
  let load_penalty := (b.current_load : ℚ) * (1/10)
  cost_weight * b.cost + risk_weight * b.risk * 100 + load_penalty

/-- The mutable allocation state threaded through the allocation loops:
the allocation mapping, the set of already-assigned survivors, and the
per-agent load counts. -/
structure AllocState (α : Type) where
  allocation : α → List Pos
  assigned_survivors : Finset Pos
  agent_load : α → ℕ

/-- Embeds CSPAllocator._generate_assignments: every (agent, survivor)
pair whose survivor risk does not exceed the risk threshold, with the
weighted priority. -/
def generate_assignments {α : Type} (agents : List (α × AgentInfo)) (survivors : List Pos)
    (risk : Pos → ℚ) (distance_func : Pos → Pos → ℚ) : List (Assignment α) :=
  agents.flatMap (fun ai =>
    survivors.filterMap (fun survivor_pos =>
      let distance := distance_func ai.2.position survivor_pos
      let r := risk survivor_pos
      if r > AI_CSP_RISK_CONSTRAINT_THRESHOLD then none
      else some
        { agent_id := ai.1, survivor_pos := survivor_pos, distance := distance, risk := r,
          priority := AI_CSP_DISTANCE_WEIGHT * distance + AI_CSP_RISK_WEIGHT * r * 100 }))

/-- One step of CSPAllocator._greedy_allocate: skip taken survivors and
agents at capacity, otherwise assign. -/
def greedy_step {α : Type} [DecidableEq α] (st : AllocState α) (a : Assignment α) :
    AllocState α :=
  if a.survivor_pos ∈ st.assigned_survivors then st
  else if AI_CSP_MAX_SURVIVORS_PER_AGENT ≤ st.agent_load a.agent_id then st
  else
    { allocation := fun i =>
        if i = a.agent_id then st.allocation i ++ [a.survivor_pos] else st.allocation i
      assigned_survivors := insert a.survivor_pos st.assigned_survivors
      agent_load := fun i =>
        if i = a.agent_id then st.agent_load i + 1 else st.agent_load i }

/-- Embeds CSPAllocator.allocate: filter to rescue agents, generate the
feasible assignments, sort ascending by priority (stable, as list.sort),
and assign greedily under the capacity and uniqueness constraints. -/
def csp_allocate {α : Type} [DecidableEq α] (agents : List (α × AgentInfo))
    (survivors : List Pos) (risk : Pos → ℚ) (distance_func : Pos → Pos → ℚ) :
    α → List Pos :=
  let rescue_agents := agents.filter (fun ai => ai.2.type = AgentTy.RESCUE)
  if rescue_agents = [] ∨ survivors = [] then fun _ => []
  else
    let possible_assignments :=
      generate_assignments rescue_agents survivors risk distance_func
    let sorted :=
      possible_assignments.insertionSort (fun a b => a.priority ≤ b.priority)
    (sorted.foldl greedy_step
      { allocation := fun _ => [], assigned_survivors := ∅, agent_load := fun _ => 0 }).allocation

/-- The bid collection pass of CSPAllocator.allocate_auction for one
survivor: each rescue agent below capacity whose risk check passes
submits a TaskBid. -/
def auction_bids {α : Type} (rescue_agents : List (α × AgentInfo)) (st : AllocState α)
    (survivor_pos : Pos) (risk : Pos → ℚ) (distance_func : Pos → Pos → ℚ) :
    List (TaskBid α) :=
  rescue_agents.filterMap (fun ai =>
    if AI_CSP_MAX_SURVIVORS_PER_AGENT ≤ st.agent_load ai.1 then none
    else
      let distance := distance_func ai.2.position survivor_pos
      let r := risk survivor_pos
      if r > AI_CSP_RISK_CONSTRAINT_THRESHOLD then none
      else some
        { agent_id := ai.1, task_id := survivor_pos, cost := distance, capability := 1,
          risk := r, expected_time := distance.num / (distance.den : Int) + 10,
          current_load := st.agent_load ai.1 })

/-- The per-survivor body of CSPAllocator.allocate_auction: collect the
bids, and if any, award the survivor to the bid of lowest score (stable
sort, first among ties) and bump that winner load. -/
def auction_step {α : Type} [DecidableEq α] (rescue_agents : List (α × AgentInfo))
    (risk : Pos → ℚ) (distance_func : Pos → Pos → ℚ) (st : AllocState α)
    (survivor_pos : Pos) : AllocState α :=
  match ((auction_bids rescue_agents st survivor_pos risk
      distance_func).insertionSort (fun a b =>
      a.score AI_CSP_DISTANCE_WEIGHT AI_CSP_RISK_WEIGHT ≤
        b.score AI_CSP_DISTANCE_WEIGHT AI_CSP_RISK_WEIGHT)).head? with
  | none => st
  | some winner =>
    { allocation := fun i =>
        if i = winner.agent_id then st.allocation i ++ [survivor_pos]
        else st.allocation i
      assigned_survivors := insert survivor_pos st.assigned_survivors
      agent_load := fun i =>
        if i = winner.agent_id then st.agent_load i + 1 else st.agent_load i }

/-- Embeds CSPAllocator.allocate_auction: auction the survivors in order;
the lowest-score bid wins and its load increments before the next
auction. -/
def allocate_auction {α : Type} [DecidableEq α] (agents : List (α × AgentInfo))
    (survivors : List Pos) (risk : Pos → ℚ) (distance_func : Pos → Pos → ℚ) :
    α → List Pos :=
  let rescue_agents := agents.filter (fun ai => ai.2.type = AgentTy.RESCUE)
  if rescue_agents = [] ∨ survivors = [] then fun _ => []
  else
    (survivors.foldl (auction_step rescue_agents risk distance_func)
      { allocation := fun _ => [], assigned_survivors := ∅, agent_load := fun _ => 0 }).allocation

/-! ## Hybrid coordinator (src/ai/coordinator.py) -/

/-- Embeds enum CoordinationMode. -/
inductive CoordinationMode where
  | CENTRALIZED | AUCTION | COALITION | HYBRID
deriving DecidableEq, Repr

/-- The classification strings returned by uncertainty_level. -/
inductive UncertaintyLevel where
  | LOW | MODERATE | HIGH
deriving DecidableEq, Repr

/-- Embeds dataclass EnvironmentalAssessment. -/
structure EnvironmentalAssessment where
  avg_risk : ℚ
  max_risk : ℚ
  risk_variance : ℚ
  task_count : ℕ
  agent_count : ℕ
  task_complexity : ℚ
  exploration_coverage : ℚ
deriving DecidableEq

/-- Embeds EnvironmentalAssessment.uncertainty_level: LOW when avg_risk
below 0.3 and variance below 0.1, MODERATE when avg_risk below 0.6 and
max_risk below 0.8, else HIGH. -/
def EnvironmentalAssessment.uncertainty_level (a : EnvironmentalAssessment) :
    UncertaintyLevel :=
  if a.avg_risk < 3/10 ∧ a.risk_variance < 1/10 then .LOW
  else if a.avg_risk < 3/5 ∧ a.max_risk < 4/5 then .MODERATE
  else .HIGH

/-- Embeds EnvironmentalAssessment.recommended_mode: LOW to CENTRALIZED,
MODERATE to AUCTION, HIGH to COALITION. -/
def EnvironmentalAssessment.recommended_mode (a : EnvironmentalAssessment) :
    CoordinationMode :=
  match a.uncertainty_level with
  | .LOW => .CENTRALIZED
  | .MODERATE => .AUCTION
  | .HIGH => .COALITION

/-- The nearest-rescue-agent scan of HybridCoordinator._allocate_with_coalitions
for one high-risk survivor: agents at capacity are skipped and a strictly
smaller distance replaces the incumbent. -/
def find_best_rescue {α : Type} (rescue_agents : List (α × AgentInfo))
    (allocation : α → List Pos) (survivor_pos : Pos)
    (distance_func : Pos → Pos → ℚ) : Option α :=
  (rescue_agents.foldl
    (fun (best : Option α × CostVal) ai =>
      if AI_CSP_MAX_SURVIVORS_PER_AGENT ≤ (allocation ai.1).length then best
      else
        let dist := distance_func ai.2.position survivor_pos
        if CostVal.lt (some dist) best.2 then (some ai.1, some dist) else best)
    (none, none)).1

/-- Embeds HybridCoordinator._allocate_with_coalitions: survivors with
combined risk above 0.7 are assigned to their nearest rescue agent and
paired with the first not-yet-paired support agent; the remaining
survivors go through allocate_auction over the rescue agents, and that
allocation is merged in by extending the per-agent lists. -/
def allocate_with_coalitions {α : Type} [DecidableEq α] (agents : List (α × AgentInfo))
    (survivors : List Pos) (risk : Pos → ℚ) (distance_func : Pos → Pos → ℚ) :
    α → List Pos :=
  let rescue_agents := agents.filter (fun ai => ai.2.type = AgentTy.RESCUE)
  let support_agents := agents.filter (fun ai => ai.2.type = AgentTy.SUPPORT)
  let high_risk_survivors := survivors.filter (fun s => risk s > 7/10)
  let normal_survivors := survivors.filter (fun s => ¬ risk s > 7/10)
  let st := high_risk_survivors.foldl
    (fun (st : (α → List Pos) × Finset α) survivor_pos =>
      match find_best_rescue rescue_agents st.1 survivor_pos distance_func with
      | none => st
      | some best_rescue =>
        let allocation1 := fun aid =>
          if aid = best_rescue then st.1 aid ++ [survivor_pos] else st.1 aid
        match support_agents.find? (fun ai => decide (ai.1 ∉ st.2)) with
        | some sai =>
          (fun aid => if aid = sai.1 then allocation1 aid ++ [survivor_pos]
                      else allocation1 aid,
           insert sai.1 st.2)
        | none => (allocation1, st.2))
    (fun _ => [], ∅)
  if normal_survivors ≠ [] then
    let normal_allocation :=
      allocate_auction rescue_agents normal_survivors risk distance_func
    fun aid => st.1 aid ++ normal_allocation aid
  else st.1

/-! ## Actions and agent action execution (src/ai/planner.py, src/agents/base_agent.py) -/

/-- Embeds class ActionType of src/utils/config.py. -/
inductive ActionType where
  | move | pickup | transport | drop | explore | wait
deriving DecidableEq, Repr

/-- An untyped Python value that can sit in an Action parameter slot:
either a coordinate pair or a float. -/
inductive PyVal where
  | pos (p : Pos)
  | num (c : CostVal)
deriving DecidableEq, Repr

/-- Embeds dataclass Action of src/ai/planner.py (the name Action is
taken by Mathlib): the type tag and the parameter dict entries the
interpreters read (target, position, path).  The human-readable
precondition and effect strings are non-semantic and omitted; absent
dict keys and None values both map to none. -/
structure PlanAction where
  type : ActionType
  target : Option PyVal := none
  position : Option PyVal := none
  path : Option (List Pos) := none
  cost : ℚ := 1
deriving DecidableEq, Repr

/-- The BaseAgent fields that move_to and execute_action touch. -/
structure AgentState where
  agent_type : AgentTy
  position : Pos
  carrying_survivor : Bool
  steps_taken : ℕ
  blocked_steps : ℕ
  survivors_rescued : ℕ
  cells_explored : ℕ
deriving DecidableEq, Repr

/-- Embeds BaseAgent.move_to: moving onto the current position succeeds
without stepping; an agent standing in an impassable cell may step onto
any existing cell; otherwise the destination must exist and be passable,
except that RESCUE and SUPPORT agents may enter existing impassable
cells as a last resort. -/
def AgentState.move_to (ag : AgentState) (target : Pos) (g : Grid) : Bool × AgentState :=
  if ag.position = target then (true, ag)
  else
    let cell := g.get_cell target.1 target.2
    let current_cell := g.get_cell ag.position.1 ag.position.2
    let step : AgentState :=
      { ag with position := target, steps_taken := ag.steps_taken + 1, blocked_steps := 0 }
    if (current_cell.map (fun c => !c.is_passable)).getD false then
      match cell with
      | some _ => (true, step)
      | none => (false, { ag with blocked_steps := ag.blocked_steps + 1 })
    else if !((cell.map Cell.is_passable).getD false) then
      if cell.isSome && (ag.agent_type = AgentTy.RESCUE || ag.agent_type = AgentTy.SUPPORT) then
        (true, step)
      else (false, { ag with blocked_steps := ag.blocked_steps + 1 })
    else (true, step)

/-- Embeds BaseAgent.execute_action, the action-to-environment
interpreter, dropping the human-readable result messages.  The result is
none when the source would raise an uncaught TypeError from indexing a
parameter value that is not a coordinate pair (as the delivery-planning
bug can produce); otherwise some (success, agent, grid). -/
def execute_action (ag : AgentState) (action : PlanAction) (g : Grid) :
    Option (Bool × AgentState × Grid) :=
  match action.type with
  | .move =>
    match action.target with
    | some (.pos target) =>
      let r := ag.move_to target g
      some (r.1, r.2, g)
    | some (.num c) => if CostVal.pyTruthy c then none else some (false, ag, g)
    | none => some (false, ag, g)
  | .pickup =>
    match action.position with
    | some (.pos pos) =>
      match g.get_cell pos.1 pos.2 with
      | some cell =>
        if cell.has_survivor && ag.position = pos then
          some (true, { ag with carrying_survivor := true }, g.remove_survivor pos.1 pos.2)
        else some (false, ag, g)
      | none => some (false, ag, g)
    | some (.num _) => none
    | none => none
  | .drop =>
    match action.position with
    | some (.pos pos) =>
      match g.get_cell pos.1 pos.2 with
      | some cell =>
        if cell.is_safe_zone && ag.carrying_survivor && ag.position = pos then
          some (true,
            { ag with carrying_survivor := false,
                      survivors_rescued := ag.survivors_rescued + 1 }, g)
        else some (false, ag, g)
      | none => some (false, ag, g)
    | some (.num _) => none
    | none => none
  | .transport =>
    match action.target with
    | some (.pos target) =>
      let r := ag.move_to target g
      some (r.1, r.2, g)
    | some (.num c) => if CostVal.pyTruthy c then none else some (false, ag, g)
    | none => some (false, ag, g)
  | .explore =>
    match action.target with
    | some (.pos target) =>
      let r := ag.move_to target g
      if r.1 then some (true, { r.2 with cells_explored := r.2.cells_explored + 1 }, g)
      else some (false, r.2, g)
    | some (.num c) => if CostVal.pyTruthy c then none else some (false, ag, g)
    | none => some (false, ag, g)
  | .wait => some (true, ag, g)

/-! ## Delivery planning of the rescue agent (src/agents/rescue.py) -/

/-- Embeds RescueAgent._plan_delivery.  safe_zones is the list
enumeration of grid.safe_zone_positions (Python set order is
unspecified).  The source unpacks the (goal, path, cost) triple returned
by find_nearest_goal as underscore, underscore, best_zone, so best_zone
is bound to the COST, a float; the subsequent best_zone-is-None fallback
never fires on a float, the truthiness test fails only for cost 0.0, and
the float ends up as the TRANSPORT target and DROP position.  The
injected terrain-cost lambda of the source yields float inf for missing
cells; that branch is unreachable (the grid neighbor function yields
only in-bounds cells) and is embedded as 0. -/
def plan_delivery (fuel : ℕ) (g : Grid) (safe_zones : List Pos) (m : BayesianRiskModel)
    (position : Pos) : List PlanAction :=
  let result := find_nearest_goal fuel position safe_zones
    (fun p => match g.get_cell p.1 p.2 with
      | some c => c.is_passable
      | none => false)
    (fun p => g.get_neighbors p.1 p.2 false)
    (fun p => match g.get_cell p.1 p.2 with
      | some c => compute_terrain_cost c
      | none => 0)
    (fun p => compute_risk_cost (m.get_risk p RiskType.combined))
  let best_zone : CostVal := result.2.2
  if ¬ CostVal.pyTruthy best_zone then []
  else
    [ { type := ActionType.transport, target := some (PyVal.num best_zone), path := none },
      { type := ActionType.drop, position := some (PyVal.num best_zone) } ]

/-! ## Specification-side notions used to state the A* claims -/

/-- Manhattan distance as a natural number. -/
def md (p q : Pos) : ℕ := (p.1 - q.1).natAbs + (p.2 - q.2).natAbs

/-- Membership of a coordinate in a width-by-height grid. -/
def inBounds (width height : Int) (p : Pos) : Prop :=
  0 ≤ p.1 ∧ p.1 < width ∧ 0 ≤ p.2 ∧ p.2 < height

instance (width height : Int) (p : Pos) : Decidable (inBounds width height p) := by
  unfold inBounds; infer_instance

/-- Each element of the list after the first is a neighbor, per nbrs, of
the element before it (path contiguity). -/
def chainStep (nbrs : Pos → List Pos) : List Pos → Bool
  | [] => true
  | [_] => true
  | a :: b :: rest => decide (b ∈ nbrs a) && chainStep nbrs (b :: rest)

/-- The list is a route from start to goal whose every cell is passable
and whose consecutive cells are neighbors. -/
def isWalk (passable : Pos → Bool) (nbrs : Pos → List Pos) (start goal : Pos)
    (l : List Pos) : Bool :=
  (l.head? == some start) && (l.getLast? == some goal) &&
    l.all passable && chainStep nbrs l

/-- The accumulated g-cost at each waypoint of a path, as astar_search
accumulates it: 1.0 per step plus the terrain and risk cost of the
entered cell. -/
def g_along (get_terrain_cost get_risk_cost : Pos → ℚ) : List Pos → ℚ → List ℚ
  | [], _ => []
  | [_], acc => [acc]
  | _ :: b :: rest, acc =>
    acc :: g_along get_terrain_cost get_risk_cost (b :: rest)
      (acc + 1 + get_terrain_cost b + get_risk_cost b)

/-- The set of coordinates of a width-by-height grid. -/
def gridUniverse (width height : Int) : Finset Pos :=
  (Finset.range width.toNat ×ˢ Finset.range height.toNat).image
    (fun ab => ((ab.1 : Int), (ab.2 : Int)))

/-- A fuel amount sufficient for astar_search on a grid of the given
dimensions: every loop iteration either closes a fresh cell (pushing at
most 4 nodes) or shrinks the open list, so the iteration count stays
below 5 cells + 2. -/
def gridFuel (width height : Int) : ℕ := 5 * (width.toNat * height.toNat) + 2

/-- The canonical monotone staircase from start to goal: first walk the x
coordinate to the goal column, then the y coordinate; position after i
steps (clamping is irrelevant: the lemmas use i at most the manhattan
distance). -/
def canonPos (start goal : Pos) (i : ℕ) : Pos :=
  if i ≤ (goal.1 - start.1).natAbs then
    (start.1 + (if start.1 ≤ goal.1 then (i : Int) else -(i : Int)), start.2)
  else
    (goal.1, start.2 +
      (if start.2 ≤ goal.2 then ((i - (goal.1 - start.1).natAbs : ℕ) : Int)
       else -((i - (goal.1 - start.1).natAbs : ℕ) : Int)))

/-- The loop invariant nodes of the zero-cost all-passable grid search:
the carried path starts at start, ends at the node position, is
contiguous on the grid, has unit g equal to its step count, and the
stored heuristic is the exact manhattan distance to the goal. -/
def NodeZ (width height : Int) (start goal : Pos) (n : AStarNode) : Prop :=
  n.path.head? = some start ∧ n.path.getLast? = some n.position ∧
  chainStep (grid_neighbors width height) n.path = true ∧
  n.path ≠ [] ∧ n.g_cost = ((n.path.length - 1 : ℕ) : ℚ) ∧
  n.h_cost = (md n.position goal : ℚ)

/-- The full loop invariant for the zero-cost all-passable grid search:
node validity, containment in the grid, the goal never closed, the
g_costs map bounded below by true distance and witnessed in the open
list, the canonical-path bookkeeping, and the optimal frontier witness
on the canonical path. -/
def AStarInv (width height : Int) (start goal : Pos) (open_set : List AStarNode)
    (closed : Finset Pos) (gmap : Pos → Option ℚ) : Prop :=
  (∀ n ∈ open_set, NodeZ width height start goal n) ∧
  (∀ n ∈ open_set, n.position ∈ gridUniverse width height) ∧
  closed ⊆ gridUniverse width height ∧
  goal ∉ closed ∧
  (∀ p v, gmap p = some v → (md start p : ℚ) ≤ v) ∧
  (∀ p, p ∉ closed → ∀ v, gmap p = some v →
    ∃ n ∈ open_set, n.position = p ∧ n.g_cost = v) ∧
  (∀ n ∈ open_set, ∃ v, gmap n.position = some v ∧ v ≤ n.g_cost) ∧
  (∀ j ≤ md start goal, canonPos start goal j ∈ closed →
    gmap (canonPos start goal j) = some (j : ℚ)) ∧
  (∀ j < md start goal, canonPos start goal j ∈ closed →
    ∃ v ≤ ((j + 1 : ℕ) : ℚ), gmap (canonPos start goal (j + 1)) = some v) ∧
  (∃ i ≤ md start goal, (∀ j < i, canonPos start goal j ∈ closed) ∧
    canonPos start goal i ∉ closed ∧
    ∃ n ∈ open_set, n.position = canonPos start goal i ∧ n.g_cost = (i : ℚ))

/-- All stored probabilities and all priors of a risk model lie in the
unit interval (the inductive invariant behind the risk-bound claims). -/
def RiskModelBounded (m : BayesianRiskModel) : Prop :=
  (0 ≤ m.prior_fire ∧ m.prior_fire ≤ 1) ∧
  (0 ≤ m.prior_flood ∧ m.prior_flood ≤ 1) ∧
  (0 ≤ m.prior_collapse ∧ m.prior_collapse ≤ 1) ∧
  (∀ p q, m.fire_risk p = some q → 0 ≤ q ∧ q ≤ 1) ∧
  (∀ p q, m.flood_risk p = some q → 0 ≤ q ∧ q ≤ 1) ∧
  (∀ p q, m.collapse_risk p = some q → 0 ≤ q ∧ q ≤ 1)

/-- The node carries a valid passable route from the start to its
position (the invariant of the open list that makes every returned path
a real walk). -/
def NodeHasWalk (passable : Pos → Bool) (nbrs : Pos → List Pos) (start : Pos)
    (n : AStarNode) : Prop :=
  n.path.head? = some start ∧ n.path.getLast? = some n.position ∧
  (∀ p ∈ n.path, passable p = true) ∧ chainStep nbrs n.path = true

/-! ## Theorems -/

/-- Claim C2 (code bug witness).  The spec invariant says every position
set equals the set of cells whose flag is true, every mutator updating
cell and set atomically.  Grid.add_safe_zone clears the has_debris flag
of the cell but leaves the position in debris_positions: after
add_debris (1,1) then add_safe_zone (1,1) on a 3x3 grid, (1,1) is still
in debris_positions while the cell flag is false. -/
theorem c2_add_safe_zone_desyncs_debris_set :
    (((1, 1) : Pos) ∈
      ((((Grid.init 3 3).add_debris 1 1).2.add_safe_zone 1 1).2).debris_positions) ∧
    (((((Grid.init 3 3).add_debris 1 1).2.add_safe_zone 1 1).2.get_cell 1 1).map
      Cell.has_debris = some false) := by
  constructor
  · decide
  · decide

/-- Claim C3 (counterexample).  A survivor whose combined risk 0.9
exceeds the risk threshold 0.65 is nevertheless assigned by the
coalition protocol: with one rescue agent and one survivor of risk 0.9,
allocate_with_coalitions puts the survivor in the agent assignment
list (the high-risk branch checks only capacity, never the threshold). -/
theorem c3_coalition_assigns_over_threshold_risk :
    ((9 : ℚ)/10 > AI_CSP_RISK_CONSTRAINT_THRESHOLD) ∧
    (((5, 5) : Pos) ∈ allocate_with_coalitions [((1 : ℕ), ⟨(0, 0), AgentTy.RESCUE⟩)]
      [(5, 5)] (fun _ => 9/10) (fun a b => manhattan_distance a b) 1) := by
  constructor
  · decide
  · decide

/-- Claim C4 (counterexample).  The coalition protocol can exceed
max_survivors_per_agent = 2: with one rescue agent, two high-risk
survivors fill its list to capacity in the coalition branch, and the
auction over the remaining normal survivor starts from fresh load
counters, so the merge extends the list to length 3. -/
theorem c4_coalition_exceeds_capacity :
    (allocate_with_coalitions [((1 : ℕ), ⟨(0, 0), AgentTy.RESCUE⟩)]
      [(5, 5), (6, 6), (2, 2)]
      (fun p => if p = (2, 2) then 1/10 else 9/10)
      (fun a b => manhattan_distance a b) 1).length
      > AI_CSP_MAX_SURVIVORS_PER_AGENT := by decide

/-- Claim C1 (code bug witness).  Once carrying a survivor, the delivery
plan is supposed to target the nearest safe-zone position; but
_plan_delivery unpacks the (goal, path, cost) result of
find_nearest_goal as _, _, best_zone, binding the numeric path cost.
On a 2x2 hazard-free grid with the single safe zone (0,0), a carrying
agent at (1,1) and the freshly initialized risk model, the generated
TRANSPORT/DROP actions carry the float 6.61 (the accumulated A* cost,
two steps of 1 + 0.2305 * 10 each) instead of the position (0,0). -/
theorem c1_plan_delivery_binds_cost_not_position :
    plan_delivery 30 ((Grid.init 2 2).add_safe_zone 0 0).2 [(0, 0)]
      (BayesianRiskModel.mkNew.initialize_grid 2 2) (1, 1) =
    [ { type := ActionType.transport, target := some (PyVal.num (some (661/100))),
        path := none },
      { type := ActionType.drop, position := some (PyVal.num (some (661/100))) } ] := by
  decide

/-- Claim C7.  recommended_mode is a function of avg_risk, max_risk and
risk_variance alone: assessments agreeing on those three fields get the
same mode; the uncertainty classes map LOW to CENTRALIZED, MODERATE to
AUCTION, HIGH to COALITION; and avg_risk exactly 0.3 is never LOW (the
comparison is strict). -/
theorem c7_recommended_mode_deterministic (a b : EnvironmentalAssessment)
    (h1 : a.avg_risk = b.avg_risk) (h2 : a.max_risk = b.max_risk)
    (h3 : a.risk_variance = b.risk_variance) :
    a.recommended_mode = b.recommended_mode ∧
    (a.uncertainty_level = UncertaintyLevel.LOW →
      a.recommended_mode = CoordinationMode.CENTRALIZED) ∧
    (a.uncertainty_level = UncertaintyLevel.MODERATE →
      a.recommended_mode = CoordinationMode.AUCTION) ∧
    (a.uncertainty_level = UncertaintyLevel.HIGH →
      a.recommended_mode = CoordinationMode.COALITION) ∧
    (a.avg_risk = 3/10 → a.uncertainty_level ≠ UncertaintyLevel.LOW) := by
  refine ⟨?_, ?_, ?_, ?_, ?_⟩
  · unfold EnvironmentalAssessment.recommended_mode EnvironmentalAssessment.uncertainty_level
    rw [h1, h2, h3]
  · intro h
    unfold EnvironmentalAssessment.recommended_mode
    rw [h]
  · intro h
    unfold EnvironmentalAssessment.recommended_mode
    rw [h]
  · intro h
    unfold EnvironmentalAssessment.recommended_mode
    rw [h]
  · intro h
    unfold EnvironmentalAssessment.uncertainty_level
    rw [h]
    have : ¬ ((3 : ℚ)/10 < 3/10) := lt_irrefl _
    split_ifs with h1 h2 <;> simp_all

/-- Witness for c7_recommended_mode_deterministic at two concrete
assessments that differ in every field except the three risk statistics. -/
theorem c7_recommended_mode_deterministic_witness :
    (EnvironmentalAssessment.mk (3/10) (1/2) 0 3 1 0 0).recommended_mode =
      (EnvironmentalAssessment.mk (3/10) (1/2) 0 7 2 1 1).recommended_mode ∧
    ((EnvironmentalAssessment.mk (3/10) (1/2) 0 3 1 0 0).uncertainty_level =
        UncertaintyLevel.LOW →
      (EnvironmentalAssessment.mk (3/10) (1/2) 0 3 1 0 0).recommended_mode =
        CoordinationMode.CENTRALIZED) ∧
    ((EnvironmentalAssessment.mk (3/10) (1/2) 0 3 1 0 0).uncertainty_level =
        UncertaintyLevel.MODERATE →
      (EnvironmentalAssessment.mk (3/10) (1/2) 0 3 1 0 0).recommended_mode =
        CoordinationMode.AUCTION) ∧
    ((EnvironmentalAssessment.mk (3/10) (1/2) 0 3 1 0 0).uncertainty_level =
        UncertaintyLevel.HIGH →
      (EnvironmentalAssessment.mk (3/10) (1/2) 0 3 1 0 0).recommended_mode =
        CoordinationMode.COALITION) ∧
    ((EnvironmentalAssessment.mk (3/10) (1/2) 0 3 1 0 0).avg_risk = 3/10 →
      (EnvironmentalAssessment.mk (3/10) (1/2) 0 3 1 0 0).uncertainty_level ≠
        UncertaintyLevel.LOW) :=
  c7_recommended_mode_deterministic _ _ rfl rfl rfl

/-- Claim C10.  execute_action never consults carrying_survivor before a
PICKUP: an agent already carrying a survivor, co-located with a cell
that holds one, still gets success, the survivor is removed from the
grid (flag cleared, position dropped from the survivor set), and the
carrying flag stays true. -/
theorem c10_pickup_while_carrying_succeeds (ag : AgentState) (g : Grid) (pos : Pos)
    (cell : Cell) (hcarry : ag.carrying_survivor = true)
    (hcell : g.get_cell pos.1 pos.2 = some cell) (hsurv : cell.has_survivor = true)
    (hpos : ag.position = pos) :
    execute_action ag { type := ActionType.pickup, position := some (PyVal.pos pos) } g =
      some (true, { ag with carrying_survivor := true }, g.remove_survivor pos.1 pos.2) ∧
    ({ ag with carrying_survivor := true } : AgentState).carrying_survivor = true ∧
    pos ∉ (g.remove_survivor pos.1 pos.2).survivor_positions ∧
    ((g.remove_survivor pos.1 pos.2).get_cell pos.1 pos.2).map Cell.has_survivor =
      some false := by
  have hvalid : (g.is_valid_position pos.1 pos.2) = true := by
    by_contra h
    simp [Grid.get_cell, h] at hcell
  refine ⟨?_, rfl, ?_, ?_⟩
  · simp [execute_action, hcell, hsurv, hpos]
  · unfold Grid.remove_survivor
    rw [hcell]
    simp [hsurv, Finset.not_mem_erase]
  · unfold Grid.remove_survivor
    rw [hcell]
    simp only [hsurv, if_true]
    simp only [Grid.get_cell, Grid.is_valid_position] at hvalid ⊢
    simp [hvalid, updateCell]

/-- Witness for c10_pickup_while_carrying_succeeds: a carrying agent at
(1,1) on a 3x3 grid whose cell (1,1) holds a survivor. -/
theorem c10_pickup_while_carrying_succeeds_witness :
    execute_action
      { agent_type := AgentTy.RESCUE, position := (1, 1), carrying_survivor := true,
        steps_taken := 0, blocked_steps := 0, survivors_rescued := 0, cells_explored := 0 }
      { type := ActionType.pickup, position := some (PyVal.pos (1, 1)) }
      (((Grid.init 3 3).add_survivor 1 1).2) =
      some (true,
        { agent_type := AgentTy.RESCUE, position := (1, 1), carrying_survivor := true,
          steps_taken := 0, blocked_steps := 0, survivors_rescued := 0,
          cells_explored := 0 },
        (((Grid.init 3 3).add_survivor 1 1).2).remove_survivor 1 1) ∧
    ({ agent_type := AgentTy.RESCUE, position := (1, 1), carrying_survivor := true,
       steps_taken := 0, blocked_steps := 0, survivors_rescued := 0,
       cells_explored := 0 } : AgentState).carrying_survivor = true ∧
    ((1, 1) : Pos) ∉
      ((((Grid.init 3 3).add_survivor 1 1).2).remove_survivor 1 1).survivor_positions ∧
    (((((Grid.init 3 3).add_survivor 1 1).2).remove_survivor 1 1).get_cell 1 1).map
      Cell.has_survivor = some false :=
  c10_pickup_while_carrying_succeeds _ _ (1, 1)
    ({ Cell.init 1 1 with has_survivor := true }) rfl (by decide) (by decide) rfl

/-- Claim C8.  For a cell observed with no fire, no flood, no safe-zone
flag and zero fire neighbors, update_from_observation stores exactly
new = old*(1 - rate) + prior*rate for the fire risk, so the distance to
the prior scales by (1 - rate) = 0.7 at each update: it never grows,
and it strictly shrinks whenever the stored estimate differs from the
prior. -/
theorem c8_fire_risk_decays_toward_prior (m : BayesianRiskModel) (position : Pos)
    (cell : Cell) (neighbors_info : List Cell)
    (hx : cell.x = position.1) (hy : cell.y = position.2)
    (hf : cell.has_fire = false) (hfl : cell.has_flood = false)
    (hsz : cell.is_safe_zone = false)
    (hn : (neighbors_info.filter (fun n => n.has_fire)).length = 0) :
    (m.update_from_observation position cell neighbors_info).get_risk position RiskType.fire
      = ((m.fire_risk position).getD m.prior_fire) * (1 - AI_BAYESIAN_UPDATE_RATE)
        + m.prior_fire * AI_BAYESIAN_UPDATE_RATE ∧
    |(m.update_from_observation position cell neighbors_info).get_risk position
        RiskType.fire - m.prior_fire|
      = (1 - AI_BAYESIAN_UPDATE_RATE) *
          |((m.fire_risk position).getD m.prior_fire) - m.prior_fire| ∧
    |(m.update_from_observation position cell neighbors_info).get_risk position
        RiskType.fire - m.prior_fire|
      ≤ |((m.fire_risk position).getD m.prior_fire) - m.prior_fire| ∧
    ((m.fire_risk position).getD m.prior_fire ≠ m.prior_fire →
      |(m.update_from_observation position cell neighbors_info).get_risk position
          RiskType.fire - m.prior_fire|
        < |((m.fire_risk position).getD m.prior_fire) - m.prior_fire|) := by
  have key : (m.update_from_observation position cell neighbors_info).get_risk position
      RiskType.fire
      = ((m.fire_risk position).getD m.prior_fire) * (1 - AI_BAYESIAN_UPDATE_RATE)
        + m.prior_fire * AI_BAYESIAN_UPDATE_RATE := by
    unfold BayesianRiskModel.update_from_observation BayesianRiskModel.get_risk
      BayesianRiskModel.compute_fire_risk
    simp [hx, hy, hf, hfl, hsz, hn]
  refine ⟨key, ?_, ?_, ?_⟩
  · rw [key]
    have : ((m.fire_risk position).getD m.prior_fire) * (1 - AI_BAYESIAN_UPDATE_RATE)
        + m.prior_fire * AI_BAYESIAN_UPDATE_RATE - m.prior_fire
        = (1 - AI_BAYESIAN_UPDATE_RATE) *
            (((m.fire_risk position).getD m.prior_fire) - m.prior_fire) := by
      ring
    rw [this, abs_mul]
    have h1 : |(1 : ℚ) - AI_BAYESIAN_UPDATE_RATE| = 1 - AI_BAYESIAN_UPDATE_RATE := by
      norm_num [AI_BAYESIAN_UPDATE_RATE]
    rw [h1]
  · rw [key]
    have : ((m.fire_risk position).getD m.prior_fire) * (1 - AI_BAYESIAN_UPDATE_RATE)
        + m.prior_fire * AI_BAYESIAN_UPDATE_RATE - m.prior_fire
        = (1 - AI_BAYESIAN_UPDATE_RATE) *
            (((m.fire_risk position).getD m.prior_fire) - m.prior_fire) := by
      ring
    rw [this, abs_mul]
    have h1 : |(1 : ℚ) - AI_BAYESIAN_UPDATE_RATE| = 7/10 := by
      norm_num [AI_BAYESIAN_UPDATE_RATE]
    rw [h1]
    nlinarith [abs_nonneg (((m.fire_risk position).getD m.prior_fire) - m.prior_fire)]
  · intro hne
    rw [key]
    have : ((m.fire_risk position).getD m.prior_fire) * (1 - AI_BAYESIAN_UPDATE_RATE)
        + m.prior_fire * AI_BAYESIAN_UPDATE_RATE - m.prior_fire
        = (1 - AI_BAYESIAN_UPDATE_RATE) *
            (((m.fire_risk position).getD m.prior_fire) - m.prior_fire) := by
      ring
    rw [this, abs_mul]
    have h1 : |(1 : ℚ) - AI_BAYESIAN_UPDATE_RATE| = 7/10 := by
      norm_num [AI_BAYESIAN_UPDATE_RATE]
    have h2 : 0 < |((m.fire_risk position).getD m.prior_fire) - m.prior_fire| := by
      rw [abs_pos, sub_ne_zero]
      exact hne
    rw [h1]
    nlinarith

/-- Witness for c8_fire_risk_decays_toward_prior: a fresh model observes
the clear cell (0,0) of a 1x1 grid (no neighbors); the stored estimate
equals the prior already, so the distance stays 0 and the equalities
hold with both sides 0.7 * 0. -/
theorem c8_fire_risk_decays_toward_prior_witness :
    (BayesianRiskModel.mkNew.update_from_observation (0, 0) (Cell.init 0 0) []).get_risk
        (0, 0) RiskType.fire
      = ((BayesianRiskModel.mkNew.fire_risk (0, 0)).getD BayesianRiskModel.mkNew.prior_fire)
          * (1 - AI_BAYESIAN_UPDATE_RATE)
        + BayesianRiskModel.mkNew.prior_fire * AI_BAYESIAN_UPDATE_RATE ∧
    |(BayesianRiskModel.mkNew.update_from_observation (0, 0) (Cell.init 0 0) []).get_risk
        (0, 0) RiskType.fire - BayesianRiskModel.mkNew.prior_fire|
      = (1 - AI_BAYESIAN_UPDATE_RATE) *
          |((BayesianRiskModel.mkNew.fire_risk (0, 0)).getD
              BayesianRiskModel.mkNew.prior_fire) - BayesianRiskModel.mkNew.prior_fire| ∧
    |(BayesianRiskModel.mkNew.update_from_observation (0, 0) (Cell.init 0 0) []).get_risk
        (0, 0) RiskType.fire - BayesianRiskModel.mkNew.prior_fire|
      ≤ |((BayesianRiskModel.mkNew.fire_risk (0, 0)).getD
            BayesianRiskModel.mkNew.prior_fire) - BayesianRiskModel.mkNew.prior_fire| ∧
    ((BayesianRiskModel.mkNew.fire_risk (0, 0)).getD BayesianRiskModel.mkNew.prior_fire
        ≠ BayesianRiskModel.mkNew.prior_fire →
      |(BayesianRiskModel.mkNew.update_from_observation (0, 0) (Cell.init 0 0) []).get_risk
          (0, 0) RiskType.fire - BayesianRiskModel.mkNew.prior_fire|
        < |((BayesianRiskModel.mkNew.fire_risk (0, 0)).getD
              BayesianRiskModel.mkNew.prior_fire) - BayesianRiskModel.mkNew.prior_fire|) :=
  c8_fire_risk_decays_toward_prior BayesianRiskModel.mkNew (0, 0) (Cell.init 0 0) []
    rfl rfl rfl rfl rfl rfl

/-- Every assignment generated by _generate_assignments passed the risk
check: the risk of its survivor does not exceed the threshold. -/
theorem generate_assignments_risk_le {α : Type} (agents : List (α × AgentInfo))
    (survivors : List Pos) (risk : Pos → ℚ) (distance_func : Pos → Pos → ℚ)
    (a : Assignment α) (ha : a ∈ generate_assignments agents survivors risk distance_func) :
    risk a.survivor_pos ≤ AI_CSP_RISK_CONSTRAINT_THRESHOLD := by
  unfold generate_assignments at ha
  rw [List.mem_flatMap] at ha
  obtain ⟨ai, _, ha⟩ := ha
  rw [List.mem_filterMap] at ha
  obtain ⟨spos, _, h⟩ := ha
  by_cases hr : risk spos > AI_CSP_RISK_CONSTRAINT_THRESHOLD
  · simp [hr] at h
  · simp only [hr, if_neg, if_false] at h
    obtain rfl := Option.some.inj h
    simpa using le_of_not_lt hr

/-- Anything the greedy pass adds to an allocation list is the survivor
position of one of the folded assignments. -/
theorem greedy_foldl_mem {α : Type} [DecidableEq α] (l : List (Assignment α))
    (st : AllocState α) (i : α) (p : Pos)
    (hp : p ∈ (l.foldl greedy_step st).allocation i) :
    p ∈ st.allocation i ∨ ∃ a ∈ l, a.survivor_pos = p := by
  induction l generalizing st with
  | nil => exact Or.inl hp
  | cons a l ih =>
    rw [List.foldl_cons] at hp
    rcases ih _ hp with h | ⟨b, hb, hbp⟩
    · unfold greedy_step at h
      split_ifs at h
      · exact Or.inl h
      · exact Or.inl h
      · simp only at h
        by_cases hi : i = a.agent_id
        · rw [if_pos hi] at h
          rcases List.mem_append.mp h with h' | h'
          · exact Or.inl h'
          · exact Or.inr ⟨a, List.mem_cons_self .., (List.mem_singleton.mp h').symm⟩
        · rw [if_neg hi] at h
          exact Or.inl h
    · exact Or.inr ⟨b, List.mem_cons_of_mem _ hb, hbp⟩

/-- The greedy pass preserves the invariant that each allocation list has
the length recorded in the load map and stays within capacity. -/
theorem greedy_foldl_capacity {α : Type} [DecidableEq α] (l : List (Assignment α))
    (st : AllocState α)
    (hst : ∀ i, (st.allocation i).length = st.agent_load i ∧
      st.agent_load i ≤ AI_CSP_MAX_SURVIVORS_PER_AGENT) (i : α) :
    ((l.foldl greedy_step st).allocation i).length = (l.foldl greedy_step st).agent_load i ∧
    (l.foldl greedy_step st).agent_load i ≤ AI_CSP_MAX_SURVIVORS_PER_AGENT := by
  induction l generalizing st with
  | nil => exact hst i
  | cons a l ih =>
    rw [List.foldl_cons]
    refine ih _ (fun j => ?_)
    unfold greedy_step
    split_ifs with h1 h2
    · exact hst j
    · exact hst j
    · simp only
      by_cases hj : j = a.agent_id
      · rw [if_pos hj, if_pos hj, List.length_append, (hst j).1]
        refine ⟨rfl, ?_⟩
        rw [hj]
        omega
      · rw [if_neg hj, if_neg hj]
        exact hst j

/-- Every bid collected for a survivor passed both the capacity and the
risk checks. -/
theorem auction_bids_mem {α : Type} (rescue_agents : List (α × AgentInfo))
    (st : AllocState α) (survivor_pos : Pos) (risk : Pos → ℚ)
    (distance_func : Pos → Pos → ℚ) (b : TaskBid α)
    (hb : b ∈ auction_bids rescue_agents st survivor_pos risk distance_func) :
    b.task_id = survivor_pos ∧ risk survivor_pos ≤ AI_CSP_RISK_CONSTRAINT_THRESHOLD ∧
    st.agent_load b.agent_id < AI_CSP_MAX_SURVIVORS_PER_AGENT := by
  unfold auction_bids at hb
  rw [List.mem_filterMap] at hb
  obtain ⟨ai, _, h⟩ := hb
  by_cases hcap : AI_CSP_MAX_SURVIVORS_PER_AGENT ≤ st.agent_load ai.1
  · simp [hcap] at h
  · rw [if_neg hcap] at h
    by_cases hr : risk survivor_pos > AI_CSP_RISK_CONSTRAINT_THRESHOLD
    · simp [hr] at h
    · simp only [hr, if_false] at h
      obtain rfl := Option.some.inj h
      exact ⟨rfl, le_of_not_lt hr, lt_of_not_le hcap⟩

/-- The auction loop only assigns survivors whose risk passed the
threshold check. -/
theorem auction_foldl_mem {α : Type} [DecidableEq α]
    (rescue_agents : List (α × AgentInfo)) (survivors : List Pos) (risk : Pos → ℚ)
    (distance_func : Pos → Pos → ℚ) (st : AllocState α) (i : α) (p : Pos)
    (hp : p ∈ (survivors.foldl (auction_step rescue_agents risk distance_func)
      st).allocation i) :
    p ∈ st.allocation i ∨ risk p ≤ AI_CSP_RISK_CONSTRAINT_THRESHOLD := by
  induction survivors generalizing st with
  | nil => exact Or.inl hp
  | cons s l ih =>
    rw [List.foldl_cons] at hp
    rcases ih _ hp with h | h
    · unfold auction_step at h
      rcases hw : ((auction_bids rescue_agents st s risk
          distance_func).insertionSort (fun a b =>
            a.score AI_CSP_DISTANCE_WEIGHT AI_CSP_RISK_WEIGHT ≤
              b.score AI_CSP_DISTANCE_WEIGHT AI_CSP_RISK_WEIGHT)) with _ | ⟨winner, t⟩
      · rw [hw] at h
        exact Or.inl h
      · rw [hw] at h
        simp only [List.head?_cons] at h
        by_cases hi : i = winner.agent_id
        · rw [if_pos hi] at h
          rcases List.mem_append.mp h with h' | h'
          · exact Or.inl h'
          · have hmem : winner ∈ auction_bids rescue_agents st s risk distance_func := by
              have hww : winner ∈ ((auction_bids rescue_agents st s risk
                  distance_func).insertionSort (fun a b =>
                    a.score AI_CSP_DISTANCE_WEIGHT AI_CSP_RISK_WEIGHT ≤
                      b.score AI_CSP_DISTANCE_WEIGHT AI_CSP_RISK_WEIGHT)) := by
                rw [hw]
                exact List.mem_cons_self ..
              exact (List.mem_insertionSort _).mp hww
            obtain rfl : p = s := List.mem_singleton.mp h'
            exact Or.inr (auction_bids_mem _ _ _ _ _ _ hmem).2.1
        · rw [if_neg hi] at h
          exact Or.inl h
    · exact Or.inr h

/-- The auction loop preserves the length/load/capacity invariant. -/
theorem auction_foldl_capacity {α : Type} [DecidableEq α]
    (rescue_agents : List (α × AgentInfo)) (survivors : List Pos) (risk : Pos → ℚ)
    (distance_func : Pos → Pos → ℚ) (st : AllocState α)
    (hst : ∀ i, (st.allocation i).length = st.agent_load i ∧
      st.agent_load i ≤ AI_CSP_MAX_SURVIVORS_PER_AGENT) (i : α) :
    ((survivors.foldl (auction_step rescue_agents risk distance_func)
        st).allocation i).length
      = (survivors.foldl (auction_step rescue_agents risk distance_func)
        st).agent_load i ∧
    (survivors.foldl (auction_step rescue_agents risk distance_func)
      st).agent_load i ≤ AI_CSP_MAX_SURVIVORS_PER_AGENT := by
  induction survivors generalizing st with
  | nil => exact hst i
  | cons s l ih =>
    rw [List.foldl_cons]
    refine ih _ (fun k => ?_)
    unfold auction_step
    rcases hw : ((auction_bids rescue_agents st s risk
        distance_func).insertionSort (fun a b =>
          a.score AI_CSP_DISTANCE_WEIGHT AI_CSP_RISK_WEIGHT ≤
            b.score AI_CSP_DISTANCE_WEIGHT AI_CSP_RISK_WEIGHT)) with _ | ⟨winner, t⟩
    · rw [hw]
      exact hst k
    · rw [hw]
      simp only [List.head?_cons]
      have hmem : winner ∈ auction_bids rescue_agents st s risk distance_func := by
        have hww : winner ∈ ((auction_bids rescue_agents st s risk
            distance_func).insertionSort (fun a b =>
              a.score AI_CSP_DISTANCE_WEIGHT AI_CSP_RISK_WEIGHT ≤
                b.score AI_CSP_DISTANCE_WEIGHT AI_CSP_RISK_WEIGHT)) := by
          rw [hw]
          exact List.mem_cons_self ..
        exact (List.mem_insertionSort _).mp hww
      have hcap := (auction_bids_mem _ _ _ _ _ _ hmem).2.2
      by_cases hk : k = winner.agent_id
      · rw [if_pos hk, if_pos hk, List.length_append, (hst k).1]
        refine ⟨rfl, ?_⟩
        rw [hk]
        omega
      · rw [if_neg hk, if_neg hk]
        exact hst k

/-- Claim C3 (amended).  For the centralized greedy CSP protocol and the
single-round auction protocol, a survivor whose combined risk exceeds
risk_threshold never appears in any agent assignment list, for every
input.  (The coalition protocol does not satisfy this: see the
counterexample theorem, whose high-risk branch assigns survivors of risk
above 0.7 regardless of the threshold.) -/
theorem c3_csp_and_auction_respect_risk_threshold {α : Type} [DecidableEq α]
    (agents : List (α × AgentInfo)) (survivors : List Pos) (risk : Pos → ℚ)
    (distance_func : Pos → Pos → ℚ) (aid : α) (spos : Pos)
    (hr : risk spos > AI_CSP_RISK_CONSTRAINT_THRESHOLD) :
    spos ∉ csp_allocate agents survivors risk distance_func aid ∧
    spos ∉ allocate_auction agents survivors risk distance_func aid := by
  constructor
  · intro hmem
    unfold csp_allocate at hmem
    split_ifs at hmem with h
    · simp at hmem
    · rcases greedy_foldl_mem _ _ _ _ hmem with h0 | ⟨a, hain, hap⟩
      · simp at h0
      · have hle := generate_assignments_risk_le _ _ _ _ a
          ((List.mem_insertionSort _).mp hain)
        rw [hap] at hle
        exact absurd hle (not_le.mpr hr)
  · intro hmem
    unfold allocate_auction at hmem
    split_ifs at hmem with h
    · simp at hmem
    · rcases auction_foldl_mem _ _ _ _ _ _ _ hmem with h0 | h0
      · simp at h0
      · exact absurd h0 (not_le.mpr hr)

/-- Witness for c3_csp_and_auction_respect_risk_threshold: one rescue
agent, one survivor of combined risk 0.9, which exceeds the 0.65
threshold and therefore lands in neither the CSP nor the auction
allocation. -/
theorem c3_csp_and_auction_respect_risk_threshold_witness :
    ((9 : ℚ)/10 > AI_CSP_RISK_CONSTRAINT_THRESHOLD) ∧
    (((5, 5) : Pos) ∉ csp_allocate [((1 : ℕ), ⟨(0, 0), AgentTy.RESCUE⟩)] [(5, 5)]
      (fun _ => 9/10) (fun a b => manhattan_distance a b) 1 ∧
    ((5, 5) : Pos) ∉ allocate_auction [((1 : ℕ), ⟨(0, 0), AgentTy.RESCUE⟩)] [(5, 5)]
      (fun _ => 9/10) (fun a b => manhattan_distance a b) 1) :=
  ⟨by norm_num [AI_CSP_RISK_CONSTRAINT_THRESHOLD],
   c3_csp_and_auction_respect_risk_threshold _ _ _ _ 1 (5, 5)
     (by norm_num [AI_CSP_RISK_CONSTRAINT_THRESHOLD])⟩

/-- Claim C4 (amended).  For the centralized greedy CSP protocol and the
single-round auction protocol, every agent assignment list has length at
most max_survivors_per_agent = 2, for every input.  (The coalition
protocol does not satisfy this: its auction over normal-risk survivors
starts from fresh load counters and the merge can push a rescue agent
past capacity, see the counterexample theorem.) -/
theorem c4_csp_and_auction_respect_capacity {α : Type} [DecidableEq α]
    (agents : List (α × AgentInfo)) (survivors : List Pos) (risk : Pos → ℚ)
    (distance_func : Pos → Pos → ℚ) (aid : α) :
    (csp_allocate agents survivors risk distance_func aid).length ≤
      AI_CSP_MAX_SURVIVORS_PER_AGENT ∧
    (allocate_auction agents survivors risk distance_func aid).length ≤
      AI_CSP_MAX_SURVIVORS_PER_AGENT := by
  constructor
  · unfold csp_allocate
    split_ifs with h
    · simp [AI_CSP_MAX_SURVIVORS_PER_AGENT]
    · have hinv := greedy_foldl_capacity
        (((generate_assignments (agents.filter (fun ai => ai.2.type = AgentTy.RESCUE))
            survivors risk distance_func)).insertionSort (fun a b => a.priority ≤ b.priority))
        { allocation := fun _ => [], assigned_survivors := ∅, agent_load := fun _ => 0 }
        (fun _ => ⟨rfl, by norm_num [AI_CSP_MAX_SURVIVORS_PER_AGENT]⟩) aid
      rw [hinv.1]
      exact hinv.2
  · unfold allocate_auction
    split_ifs with h
    · simp [AI_CSP_MAX_SURVIVORS_PER_AGENT]
    · have hinv := auction_foldl_capacity
        (agents.filter (fun ai => ai.2.type = AgentTy.RESCUE)) survivors risk distance_func
        { allocation := fun _ => [], assigned_survivors := ∅, agent_load := fun _ => 0 }
        (fun _ => ⟨rfl, by norm_num [AI_CSP_MAX_SURVIVORS_PER_AGENT]⟩) aid
      rw [hinv.1]
      exact hinv.2

/-- A value read from a bounded map with a bounded default is bounded. -/
theorem getD_unit (o : Option ℚ) (d : ℚ) (ho : ∀ q, o = some q → 0 ≤ q ∧ q ≤ 1)
    (hd : 0 ≤ d ∧ d ≤ 1) : 0 ≤ o.getD d ∧ o.getD d ≤ 1 := by
  cases o with
  | none => exact hd
  | some q => exact ho q rfl

/-- The decay/evidence blend of two unit-interval values is in the unit
interval. -/
theorem blend_unit (a b : ℚ) (ha : 0 ≤ a ∧ a ≤ 1) (hb : 0 ≤ b ∧ b ≤ 1) :
    0 ≤ a * (1 - AI_BAYESIAN_UPDATE_RATE) + b * AI_BAYESIAN_UPDATE_RATE ∧
    a * (1 - AI_BAYESIAN_UPDATE_RATE) + b * AI_BAYESIAN_UPDATE_RATE ≤ 1 := by
  unfold AI_BAYESIAN_UPDATE_RATE
  constructor
  · nlinarith [ha.1, ha.2, hb.1, hb.2]
  · nlinarith [ha.1, ha.2, hb.1, hb.2]

/-- The independent-trials spread probability 1 - (1-r)^n is in the unit
interval for a rate r in the unit interval. -/
theorem spread_unit (r : ℚ) (h0 : 0 ≤ r) (h1 : r ≤ 1) (n : ℕ) :
    0 ≤ 1 - (1 - r) ^ n ∧ 1 - (1 - r) ^ n ≤ 1 := by
  have hb0 : (0 : ℚ) ≤ 1 - r := by linarith
  have hb1 : 1 - r ≤ 1 := by linarith
  have hp0 : (0 : ℚ) ≤ (1 - r) ^ n := pow_nonneg hb0 n
  have hp1 : (1 - r) ^ n ≤ 1 := pow_le_one₀ hb0 hb1
  constructor <;> linarith

theorem compute_fire_risk_unit (m : BayesianRiskModel) (cell : Cell)
    (neighbors_info : List Cell) (hpf : 0 ≤ m.prior_fire ∧ m.prior_fire ≤ 1)
    (hf : ∀ p q, m.fire_risk p = some q → 0 ≤ q ∧ q ≤ 1) :
    0 ≤ m.compute_fire_risk cell neighbors_info ∧
    m.compute_fire_risk cell neighbors_info ≤ 1 := by
  have hcur := getD_unit (m.fire_risk (cell.x, cell.y)) m.prior_fire (hf _) hpf
  unfold BayesianRiskModel.compute_fire_risk
  by_cases h1 : cell.has_fire = true
  · simp only [h1, if_true]
    norm_num
  · by_cases h2 : (cell.has_flood || cell.is_safe_zone) = true
    · simp only [h1, h2, if_false, if_true]
      norm_num
    · simp only [h1, h2, if_false]
      by_cases h3 : (neighbors_info.filter (fun n => n.has_fire)).length = 0
      · simp only [h3, if_true]
        exact blend_unit _ _ hcur hpf
      · simp only [h3, if_false]
        by_cases h4 : cell.has_debris = true
        · simp only [h4, if_true]
          exact blend_unit _ _ hcur
            (spread_unit _ (by norm_num [HAZARD_FIRE_SPREAD_TO_DEBRIS])
              (by norm_num [HAZARD_FIRE_SPREAD_TO_DEBRIS]) _)
        · simp only [h4, if_false]
          exact blend_unit _ _ hcur
            (spread_unit _ (by norm_num [HAZARD_FIRE_SPREAD_RATE])
              (by norm_num [HAZARD_FIRE_SPREAD_RATE]) _)

/-- The recomputed flood risk is in the unit interval whenever the model
is bounded. -/
theorem compute_flood_risk_unit (m : BayesianRiskModel) (cell : Cell)
    (neighbors_info : List Cell) (hpf : 0 ≤ m.prior_flood ∧ m.prior_flood ≤ 1)
    (hf : ∀ p q, m.flood_risk p = some q → 0 ≤ q ∧ q ≤ 1) :
    0 ≤ m.compute_flood_risk cell neighbors_info ∧
    m.compute_flood_risk cell neighbors_info ≤ 1 := by
  have hcur := getD_unit (m.flood_risk (cell.x, cell.y)) m.prior_flood (hf _) hpf
  unfold BayesianRiskModel.compute_flood_risk
  by_cases h1 : cell.has_flood = true
  · simp only [h1, if_true]
    norm_num
  · by_cases h2 : cell.is_safe_zone = true
    · simp only [h1, h2, if_false, if_true]
      norm_num
    · simp only [h1, h2, if_false]
      by_cases h3 : (neighbors_info.filter (fun n => n.has_flood)).length = 0
      · simp only [h3, if_true]
        exact blend_unit _ _ hcur hpf
      · simp only [h3, if_false]
        exact blend_unit _ _ hcur
          (spread_unit _ (by norm_num [HAZARD_FLOOD_SPREAD_RATE])
            (by norm_num [HAZARD_FLOOD_SPREAD_RATE]) _)

/-- The recomputed collapse risk is in the unit interval whenever the
model is bounded. -/
theorem compute_collapse_risk_unit (m : BayesianRiskModel) (cell : Cell)
    (neighbors_info : List Cell) (hpf : 0 ≤ m.prior_collapse ∧ m.prior_collapse ≤ 1)
    (hf : ∀ p q, m.collapse_risk p = some q → 0 ≤ q ∧ q ≤ 1) :
    0 ≤ m.compute_collapse_risk cell neighbors_info ∧
    m.compute_collapse_risk cell neighbors_info ≤ 1 := by
  have hcur := getD_unit (m.collapse_risk (cell.x, cell.y)) m.prior_collapse (hf _) hpf
  unfold BayesianRiskModel.compute_collapse_risk
  by_cases h1 : cell.has_debris = true
  · simp only [h1, if_true]
    norm_num
  · by_cases h2 : (cell.is_safe_zone || cell.has_survivor) = true
    · simp only [h1, h2, if_false, if_true]
      norm_num
    · simp only [h1, h2, if_false]
      by_cases h3 : (neighbors_info.filter (fun n => n.has_fire)).length = 0
      · simp only [h3, if_true]
        exact blend_unit _ _ hcur hpf
      · simp only [h3, if_false]
        exact blend_unit _ _ hcur
          (spread_unit _ (by norm_num [HAZARD_DEBRIS_GENERATION_NEAR_FIRE])
            (by norm_num [HAZARD_DEBRIS_GENERATION_NEAR_FIRE]) _)

/-- update_from_observation preserves boundedness. -/
theorem update_preserves_bounded (m : BayesianRiskModel) (position : Pos) (cell : Cell)
    (neighbors_info : List Cell) (hm : RiskModelBounded m) :
    RiskModelBounded (m.update_from_observation position cell neighbors_info) := by
  obtain ⟨hpf, hpfl, hpc, hf, hfl, hc⟩ := hm
  refine ⟨hpf, hpfl, hpc, ?_, ?_, ?_⟩
  · intro p q hq
    unfold BayesianRiskModel.update_from_observation at hq
    simp only at hq
    by_cases hp : p = position
    · rw [if_pos hp] at hq
      obtain rfl := Option.some.inj hq
      exact compute_fire_risk_unit _ _ _ hpf hf
    · rw [if_neg hp] at hq
      exact hf _ _ hq
  · intro p q hq
    unfold BayesianRiskModel.update_from_observation at hq
    simp only at hq
    by_cases hp : p = position
    · rw [if_pos hp] at hq
      obtain rfl := Option.some.inj hq
      exact compute_flood_risk_unit _ _ _ hpfl hfl
    · rw [if_neg hp] at hq
      exact hfl _ _ hq
  · intro p q hq
    unfold BayesianRiskModel.update_from_observation at hq
    simp only at hq
    by_cases hp : p = position
    · rw [if_pos hp] at hq
      obtain rfl := Option.some.inj hq
      exact compute_collapse_risk_unit _ _ _ hpc hc
    · rw [if_neg hp] at hq
      exact hc _ _ hq

/-- Every sequence of observations preserves boundedness. -/
theorem applyObservations_bounded (m : BayesianRiskModel)
    (obs : List (Pos × Cell × List Cell)) (hm : RiskModelBounded m) :
    RiskModelBounded (m.applyObservations obs) := by
  induction obs generalizing m with
  | nil => exact hm
  | cons o l ih =>
    unfold BayesianRiskModel.applyObservations at ih ⊢
    rw [List.foldl_cons]
    exact ih _ (update_preserves_bounded _ _ _ _ hm)

/-- The freshly initialized model is bounded: the configured priors are
probabilities and every seeded entry is one of them. -/
theorem initialize_grid_bounded (width height : Int) :
    RiskModelBounded (BayesianRiskModel.mkNew.initialize_grid width height) := by
  unfold BayesianRiskModel.initialize_grid BayesianRiskModel.mkNew
  refine ⟨?_, ?_, ?_, ?_, ?_, ?_⟩
  · norm_num [AI_BAYESIAN_PRIOR_FIRE]
  · norm_num [AI_BAYESIAN_PRIOR_FLOOD]
  · norm_num [AI_BAYESIAN_PRIOR_COLLAPSE]
  all_goals
    intro p q hq
    simp only at hq
    split_ifs at hq
    obtain rfl := Option.some.inj hq
    norm_num [AI_BAYESIAN_PRIOR_FIRE, AI_BAYESIAN_PRIOR_FLOOD,
      AI_BAYESIAN_PRIOR_COLLAPSE]

/-- Claim C6.  After any sequence of update_from_observation calls on an
initialized model, every get_risk value is a probability in [0, 1], and
the combined risk 1 - (1-fire)(1-flood)(1-collapse) dominates each of
the three per-hazard risks. -/
theorem c6_risk_bounds_and_combined_dominates (width height : Int)
    (obs : List (Pos × Cell × List Cell)) (p : Pos) (k : RiskType) :
    (0 ≤ ((BayesianRiskModel.mkNew.initialize_grid width height).applyObservations
        obs).get_risk p k ∧
      ((BayesianRiskModel.mkNew.initialize_grid width height).applyObservations
        obs).get_risk p k ≤ 1) ∧
    ((BayesianRiskModel.mkNew.initialize_grid width height).applyObservations
        obs).get_risk p RiskType.fire ≤
      ((BayesianRiskModel.mkNew.initialize_grid width height).applyObservations
        obs).get_risk p RiskType.combined ∧
    ((BayesianRiskModel.mkNew.initialize_grid width height).applyObservations
        obs).get_risk p RiskType.flood ≤
      ((BayesianRiskModel.mkNew.initialize_grid width height).applyObservations
        obs).get_risk p RiskType.combined ∧
    ((BayesianRiskModel.mkNew.initialize_grid width height).applyObservations
        obs).get_risk p RiskType.collapse ≤
      ((BayesianRiskModel.mkNew.initialize_grid width height).applyObservations
        obs).get_risk p RiskType.combined := by
  have hm : RiskModelBounded ((BayesianRiskModel.mkNew.initialize_grid width
      height).applyObservations obs) :=
    applyObservations_bounded _ _ (initialize_grid_bounded _ _)
  obtain ⟨hpf, hpfl, hpc, hfm, hflm, hcm⟩ := hm
  set m := (BayesianRiskModel.mkNew.initialize_grid width height).applyObservations obs
  have hfire := getD_unit (m.fire_risk p) m.prior_fire (hfm p) hpf
  have hflood := getD_unit (m.flood_risk p) m.prior_flood (hflm p) hpfl
  have hcollapse := getD_unit (m.collapse_risk p) m.prior_collapse (hcm p) hpc
  have hcomb : 0 ≤ m.get_risk p RiskType.combined ∧
      m.get_risk p RiskType.combined ≤ 1 ∧
      m.get_risk p RiskType.fire ≤ m.get_risk p RiskType.combined ∧
      m.get_risk p RiskType.flood ≤ m.get_risk p RiskType.combined ∧
      m.get_risk p RiskType.collapse ≤ m.get_risk p RiskType.combined := by
    unfold BayesianRiskModel.get_risk
    simp only
    set f := (m.fire_risk p).getD m.prior_fire
    set fl := (m.flood_risk p).getD m.prior_flood
    set c := (m.collapse_risk p).getD m.prior_collapse
    obtain ⟨hf0, hf1⟩ := hfire
    obtain ⟨hfl0, hfl1⟩ := hflood
    obtain ⟨hc0, hc1⟩ := hcollapse
    refine ⟨?_, ?_, ?_, ?_, ?_⟩
    · nlinarith [mul_nonneg (mul_nonneg (by linarith : (0:ℚ) ≤ 1 - f)
        (by linarith : (0:ℚ) ≤ 1 - fl)) (by linarith : (0:ℚ) ≤ 1 - c),
        mul_le_one₀ (mul_le_one₀ (by linarith : 1 - f ≤ 1) (by linarith) (by linarith : 1 - fl ≤ 1))
          (by linarith : (0:ℚ) ≤ 1 - c) (by linarith : 1 - c ≤ 1)]
    · nlinarith [mul_nonneg (mul_nonneg (by linarith : (0:ℚ) ≤ 1 - f)
        (by linarith : (0:ℚ) ≤ 1 - fl)) (by linarith : (0:ℚ) ≤ 1 - c)]
    · nlinarith [mul_nonneg (by linarith : (0:ℚ) ≤ 1 - f)
        (mul_nonneg (by linarith : (0:ℚ) ≤ 1 - fl) (by linarith : (0:ℚ) ≤ 1 - c)),
        mul_le_one₀ (by linarith : 1 - fl ≤ 1) (by linarith : (0:ℚ) ≤ 1 - c)
          (by linarith : 1 - c ≤ 1)]
    · nlinarith [mul_nonneg (by linarith : (0:ℚ) ≤ 1 - fl)
        (mul_nonneg (by linarith : (0:ℚ) ≤ 1 - f) (by linarith : (0:ℚ) ≤ 1 - c)),
        mul_le_one₀ (by linarith : 1 - f ≤ 1) (by linarith : (0:ℚ) ≤ 1 - c)
          (by linarith : 1 - c ≤ 1)]
    · nlinarith [mul_nonneg (by linarith : (0:ℚ) ≤ 1 - c)
        (mul_nonneg (by linarith : (0:ℚ) ≤ 1 - f) (by linarith : (0:ℚ) ≤ 1 - fl)),
        mul_le_one₀ (by linarith : 1 - f ≤ 1) (by linarith : (0:ℚ) ≤ 1 - fl)
          (by linarith : 1 - fl ≤ 1)]
  refine ⟨?_, hcomb.2.2.1, hcomb.2.2.2.1, hcomb.2.2.2.2⟩
  cases k with
  | fire => exact hfire
  | flood => exact hflood
  | collapse => exact hcollapse
  | combined => exact ⟨hcomb.1, hcomb.2.1⟩

/-- popMin yields none exactly on the empty open list. -/
theorem popMin_eq_none {l : List AStarNode} : popMin l = none ↔ l = [] := by
  cases l with
  | nil => simp [popMin]
  | cons n rest =>
    unfold popMin
    cases popMin rest with
    | none => simp
    | some mr =>
      cases mr with
      | mk m r => by_cases h : n.f_cost ≤ m.f_cost <;> simp [h]

/-- popMin removes exactly one occurrence of the returned node. -/
theorem popMin_split {l : List AStarNode} {m : AStarNode} {r : List AStarNode}
    (h : popMin l = some (m, r)) :
    ∃ l1 l2, l = l1 ++ m :: l2 ∧ r = l1 ++ l2 := by
  induction l generalizing m r with
  | nil => simp [popMin] at h
  | cons n rest ih =>
    unfold popMin at h
    cases hrest : popMin rest with
    | none =>
      rw [hrest] at h
      simp only at h
      obtain ⟨rfl, rfl⟩ := Prod.mk.injEq .. ▸ Option.some.inj h
      exact ⟨[], rest, rfl, rfl⟩
    | some mr =>
      obtain ⟨m', r'⟩ := mr
      rw [hrest] at h
      simp only at h
      by_cases hle : n.f_cost ≤ m'.f_cost
      · rw [if_pos hle] at h
        obtain ⟨rfl, rfl⟩ := Prod.mk.injEq .. ▸ Option.some.inj h
        exact ⟨[], rest, rfl, rfl⟩
      · rw [if_neg hle] at h
        obtain ⟨rfl, rfl⟩ := Prod.mk.injEq .. ▸ Option.some.inj h
        obtain ⟨l1, l2, hrest1, hrest2⟩ := ih hrest
        exact ⟨n :: l1, l2, by rw [hrest1]; rfl, by rw [hrest2]; rfl⟩

/-- The popped node is a member of the open list. -/
theorem popMin_mem {l : List AStarNode} {m : AStarNode} {r : List AStarNode}
    (h : popMin l = some (m, r)) : m ∈ l := by
  obtain ⟨l1, l2, hl, _⟩ := popMin_split h
  rw [hl]
  exact List.mem_append.mpr (Or.inr (List.mem_cons_self ..))

/-- The remainder after popMin is contained in the open list. -/
theorem popMin_rest_mem {l : List AStarNode} {m : AStarNode} {r : List AStarNode}
    (h : popMin l = some (m, r)) : ∀ x ∈ r, x ∈ l := by
  obtain ⟨l1, l2, hl, hr⟩ := popMin_split h
  intro x hx
  rw [hl]
  rcases List.mem_append.mp (hr ▸ hx) with h' | h'
  · exact List.mem_append.mpr (Or.inl h')
  · exact List.mem_append.mpr (Or.inr (List.mem_cons_of_mem _ h'))

/-- The popped node has minimal f_cost among the open list. -/
theorem popMin_min {l : List AStarNode} {m : AStarNode} {r : List AStarNode}
    (h : popMin l = some (m, r)) : ∀ x ∈ l, m.f_cost ≤ x.f_cost := by
  induction l generalizing m r with
  | nil => simp [popMin] at h
  | cons n rest ih =>
    unfold popMin at h
    cases hrest : popMin rest with
    | none =>
      rw [hrest] at h
      simp only at h
      obtain ⟨rfl, rfl⟩ := Prod.mk.injEq .. ▸ Option.some.inj h
      obtain rfl := popMin_eq_none.mp hrest
      intro x hx
      obtain rfl := List.mem_singleton.mp hx
      exact le_refl _
    | some mr =>
      obtain ⟨m', r'⟩ := mr
      rw [hrest] at h
      simp only at h
      by_cases hle : n.f_cost ≤ m'.f_cost
      · rw [if_pos hle] at h
        obtain ⟨rfl, rfl⟩ := Prod.mk.injEq .. ▸ Option.some.inj h
        intro x hx
        rcases List.mem_cons.mp hx with rfl | hx'
        · exact le_refl _
        · exact le_trans hle (ih hrest x hx')
      · rw [if_neg hle] at h
        obtain ⟨rfl, rfl⟩ := Prod.mk.injEq .. ▸ Option.some.inj h
        intro x hx
        rcases List.mem_cons.mp hx with rfl | hx'
        · exact le_of_lt (lt_of_not_le hle)
        · exact ih hrest x hx'


theorem chainStep_append (nbrs : Pos → List Pos) (l : List Pos) (v q : Pos)
    (hl : chainStep nbrs l = true) (hlast : l.getLast? = some v) (hq : q ∈ nbrs v) :
    chainStep nbrs (l ++ [q]) = true := by
  induction l generalizing v with
  | nil => simp at hlast
  | cons a t ih =>
    cases t with
    | nil =>
      have hva : v = a := by simpa using hlast.symm
      subst hva
      simp [chainStep, hq]
    | cons b t' =>
      rw [List.getLast?_cons_cons] at hlast
      unfold chainStep at hl
      rw [Bool.and_eq_true] at hl
      have hrec := ih v hl.2 hlast hq
      unfold chainStep
      rw [List.cons_append, List.cons_append]
      rw [Bool.and_eq_true]
      exact ⟨hl.1, by simpa using hrec⟩

/-- Every node produced by the neighbor-expansion fold is either an
accumulated one or built from the current node and a passable unclosed
neighbor from the folded list, with the tentative g, extended path and
risk-weighted heuristic. -/
theorem expand_foldl_mem (goal : Pos) (passable : Pos → Bool)
    (tc rc : Pos → ℚ) (closed : Finset Pos) (current : AStarNode)
    (l : List Pos) (acc : List AStarNode × (Pos → Option ℚ)) (n : AStarNode)
    (hn : n ∈ (l.foldl (expandNeighbor goal passable tc rc closed current) acc).1) :
    n ∈ acc.1 ∨ ∃ q ∈ l, passable q = true ∧ q ∉ closed ∧ n.position = q ∧
      n.path = current.path ++ [q] ∧
      n.g_cost = current.g_cost + 1 + tc q + rc q ∧
      n.h_cost = manhattan_distance q goal *
        (1 + AI_ASTAR_HEURISTIC_RISK_WEIGHT * (rc q / AI_ASTAR_RISK_PENALTY_MULTIPLIER)) := by
  induction l generalizing acc with
  | nil => exact Or.inl hn
  | cons q l ih =>
    rw [List.foldl_cons] at hn
    rcases ih _ hn with h | ⟨q', hq', rest⟩
    · unfold expandNeighbor at h
      rcases hpass : passable q with _ | _
      · rw [hpass] at h
        simp only [Bool.not_false, if_true] at h
        exact Or.inl h
      · rw [hpass] at h
        simp only [Bool.not_true, Bool.false_eq_true, if_false] at h
        by_cases hclosed : q ∈ closed
        · rw [if_pos hclosed] at h
          exact Or.inl h
        · rw [if_neg hclosed] at h
          split_ifs at h with himp
          · rcases List.mem_append.mp h with h' | h'
            · exact Or.inl h'
            · obtain rfl := List.mem_singleton.mp h'
              exact Or.inr ⟨q, List.mem_cons_self .., hpass, hclosed, rfl, rfl, rfl, rfl⟩
          · exact Or.inl h
    · exact Or.inr ⟨q', List.mem_cons_of_mem _ hq', rest⟩

/-- If the whole open list carries valid walks, a result of astarLoop
with a finite cost is a valid passable walk from start to goal. -/
theorem astarLoop_some_isWalk (goal : Pos) (passable : Pos → Bool)
    (nbrs : Pos → List Pos) (tc rc : Pos → ℚ) (start : Pos) :
    ∀ (fuel : ℕ) (open_set : List AStarNode) (closed : Finset Pos)
      (gmap : Pos → Option ℚ) (path : List Pos) (cost : ℚ),
    (∀ n ∈ open_set, NodeHasWalk passable nbrs start n) →
    astarLoop goal passable nbrs tc rc fuel open_set closed gmap = (path, some cost) →
    isWalk passable nbrs start goal path = true := by
  intro fuel
  induction fuel with
  | zero =>
    intro open_set closed gmap path cost _ h
    exact absurd (congrArg Prod.snd h) (by simp [astarLoop])
  | succ fuel ih =>
    intro open_set closed gmap path cost hopen h
    unfold astarLoop at h
    cases hpop : popMin open_set with
    | none =>
      rw [hpop] at h
      exact absurd (congrArg Prod.snd h) (by simp)
    | some cr =>
      obtain ⟨current, rest⟩ := cr
      rw [hpop] at h
      simp only at h
      by_cases hgoal : current.position = goal
      · rw [if_pos hgoal] at h
        have hpath : current.path = path := congrArg Prod.fst h
        obtain ⟨hh, hl, hp, hc⟩ := hopen current (popMin_mem hpop)
        rw [hpath] at hh hl hp hc
        unfold isWalk
        rw [Bool.and_eq_true, Bool.and_eq_true, Bool.and_eq_true]
        refine ⟨⟨⟨?_, ?_⟩, ?_⟩, hc⟩
        · simp [hh]
        · rw [hgoal] at hl
          simp [hl]
        · rw [List.all_eq_true]
          intro p hp'
          exact hp p hp'
      · rw [if_neg hgoal] at h
        by_cases hclosed : current.position ∈ closed
        · rw [if_pos hclosed] at h
          exact ih rest closed gmap path cost
            (fun n hn => hopen n (popMin_rest_mem hpop n hn)) h
        · rw [if_neg hclosed] at h
          refine ih _ _ _ path cost ?_ h
          intro n hn
          rcases List.mem_append.mp hn with hn' | hn'
          · exact hopen n (popMin_rest_mem hpop n hn')
          · rcases expand_foldl_mem _ _ _ _ _ _ _ _ _ hn' with h0 |
              ⟨q, hq, hpass, _, hqpos, hqpath, _, _⟩
            · simp at h0
            · obtain ⟨hh, hl, hp, hc⟩ := hopen current (popMin_mem hpop)
              refine ⟨?_, ?_, ?_, ?_⟩
              · rw [hqpath]
                cases hcp : current.path with
                | nil => rw [hcp] at hh; simp at hh
                | cons a t => rw [hcp] at hh; simpa using hh
              · rw [hqpath, hqpos, List.getLast?_concat]
              · intro p hp'
                rw [hqpath] at hp'
                rcases List.mem_append.mp hp' with h' | h'
                · exact hp p h'
                · obtain rfl := List.mem_singleton.mp h'
                  exact hpass
              · rw [hqpath]
                exact chainStep_append nbrs current.path current.position q hc hl hq

/-- When astarLoop reports no finite cost, the whole result is the
no-path pair: an empty path and the infinite cost. -/
theorem astarLoop_none_eq (goal : Pos) (passable : Pos → Bool)
    (nbrs : Pos → List Pos) (tc rc : Pos → ℚ) :
    ∀ (fuel : ℕ) (open_set : List AStarNode) (closed : Finset Pos)
      (gmap : Pos → Option ℚ),
    (astarLoop goal passable nbrs tc rc fuel open_set closed gmap).2 = none →
    astarLoop goal passable nbrs tc rc fuel open_set closed gmap = ([], none) := by
  intro fuel
  induction fuel with
  | zero =>
    intro open_set closed gmap _
    rfl
  | succ fuel ih =>
    intro open_set closed gmap h
    rcases hpop : popMin open_set with _ | ⟨current, rest⟩
    · unfold astarLoop
      rw [hpop]
    · unfold astarLoop at h ⊢
      rw [hpop] at h ⊢
      simp only at h ⊢
      by_cases hgoal : current.position = goal
      · rw [if_pos hgoal] at h
        simp at h
      · rw [if_neg hgoal] at h ⊢
        by_cases hclosed : current.position ∈ closed
        · rw [if_pos hclosed] at h ⊢
          exact ih _ _ _ h
        · rw [if_neg hclosed] at h ⊢
          exact ih _ _ _ h

/-- Claim C9.  If the injected predicate marks the start or the goal
impassable, or no contiguous route of passable neighbor cells joins the
start to the goal, astar_search yields ([], none), the embedding of the
([], float inf) no-path result, for every fuel amount. -/
theorem c9_astar_unreachable_returns_empty_inf (fuel : ℕ) (start goal : Pos)
    (is_passable : Pos → Bool) (get_neighbors : Pos → List Pos)
    (get_terrain_cost get_risk_cost : Pos → ℚ)
    (h : is_passable start = false ∨ is_passable goal = false ∨
      ∀ l, isWalk is_passable get_neighbors start goal l = false) :
    astar_search fuel start goal is_passable get_neighbors get_terrain_cost
      get_risk_cost = ([], none) := by
  rcases hs : is_passable start with _ | _
  · unfold astar_search
    rw [hs]
    simp
  · rcases hg : is_passable goal with _ | _
    · unfold astar_search
      rw [hs, hg]
      simp
    · rcases h with h | h | h
      · rw [hs] at h
        simp at h
      · rw [hg] at h
        simp at h
      · unfold astar_search
        rw [hs, hg]
        simp only [Bool.not_true, Bool.false_eq_true, if_false]
        rcases hres : (astarLoop goal is_passable get_neighbors get_terrain_cost
            get_risk_cost fuel
            [{ position := start, g_cost := 0, h_cost := manhattan_distance start goal,
               path := [start] }] ∅ (fun p => if p = start then some 0 else none)).2
          with _ | cost
        · exact astarLoop_none_eq _ _ _ _ _ _ _ _ _ hres
        · exfalso
          have hwalk := astarLoop_some_isWalk goal is_passable get_neighbors
            get_terrain_cost get_risk_cost start fuel
            [{ position := start, g_cost := 0, h_cost := manhattan_distance start goal,
               path := [start] }] ∅ (fun p => if p = start then some 0 else none)
            (astarLoop goal is_passable get_neighbors get_terrain_cost get_risk_cost fuel
              [{ position := start, g_cost := 0, h_cost := manhattan_distance start goal,
                 path := [start] }] ∅ (fun p => if p = start then some 0 else none)).1
            cost ?_ ?_
          · rw [h _] at hwalk
            exact Bool.false_ne_true hwalk
          · intro n hn
            obtain rfl := List.mem_singleton.mp hn
            refine ⟨rfl, rfl, ?_, rfl⟩
            intro p hp
            obtain rfl := List.mem_singleton.mp hp
            exact hs
          · rw [← hres]

/-- Witness for c9_astar_unreachable_returns_empty_inf: on a 2x2 grid
whose cell (1,1) is impassable, searching from (0,0) to (1,1) returns
the ([], inf) pair. -/
theorem c9_astar_unreachable_returns_empty_inf_witness :
    (fun p : Pos => decide (p ≠ (1, 1))) (1, 1) = false ∧
    astar_search 30 (0, 0) (1, 1) (fun p : Pos => decide (p ≠ (1, 1)))
      (grid_neighbors 2 2) (fun _ => 0) (fun _ => 0) = ([], none) :=
  ⟨by decide,
   c9_astar_unreachable_returns_empty_inf 30 (0, 0) (1, 1) _ _ _ _
     (Or.inr (Or.inl (by decide)))⟩

/-- The rational manhattan_distance of the source agrees with the natural-number distance md. -/
theorem manhattan_eq_md (p q : Pos) : manhattan_distance p q = (md p q : ℚ) := by
  unfold manhattan_distance md
  push_cast
  ring

/-- Triangle inequality for the grid distance. -/
theorem md_triangle (a b c : Pos) : md a c ≤ md a b + md b c := by
  unfold md
  omega

/-- Distance zero forces equal positions. -/
theorem md_eq_zero {a b : Pos} (h : md a b = 0) : a = b := by
  unfold md at h
  have h1 : a.1 = b.1 := by omega
  have h2 : a.2 = b.2 := by omega
  exact Prod.ext h1 h2

/-- The distance from a position to itself is zero. -/
theorem md_self (a : Pos) : md a a = 0 := by
  unfold md
  omega

/-- On a freshly initialized grid, is_valid_position is exactly the bounds check. -/
theorem is_valid_position_init (width height : Int) (x y : Int) :
    (Grid.init width height).is_valid_position x y = true ↔
      inBounds width height (x, y) := by
  unfold Grid.is_valid_position Grid.init inBounds
  simp [Bool.and_eq_true, decide_eq_true_eq, and_assoc]

/-- Membership in the four-neighborhood of get_neighbors: an in-bounds cell one step left, right, down or up. -/
theorem mem_grid_neighbors {width height : Int} {p q : Pos} :
    q ∈ grid_neighbors width height p ↔
      inBounds width height q ∧
      (q = (p.1 - 1, p.2) ∨ q = (p.1 + 1, p.2) ∨
       q = (p.1, p.2 - 1) ∨ q = (p.1, p.2 + 1)) := by
  unfold grid_neighbors Grid.get_neighbors
  simp only [if_neg (by simp : ¬ false = true), List.append_nil, List.mem_filter,
    List.mem_map]
  constructor
  · rintro ⟨⟨d, hd, rfl⟩, hval⟩
    rw [is_valid_position_init] at hval
    refine ⟨hval, ?_⟩
    fin_cases hd <;> simp <;> ring_nf
  · rintro ⟨hb, hq⟩
    constructor
    · rcases hq with rfl | rfl | rfl | rfl
      · exact ⟨(-1, 0), by simp, by simp [sub_eq_add_neg]⟩
      · exact ⟨(1, 0), by simp, by simp⟩
      · exact ⟨(0, -1), by simp, by simp [sub_eq_add_neg]⟩
      · exact ⟨(0, 1), by simp, by simp⟩
    · rw [is_valid_position_init]
      rcases hq with rfl | rfl | rfl | rfl <;> exact hb

/-- A cell has at most four neighbors. -/
theorem grid_neighbors_length_le (width height : Int) (p : Pos) :
    (grid_neighbors width height p).length ≤ 4 := by
  unfold grid_neighbors Grid.get_neighbors
  simp only [if_neg (by simp : ¬ false = true), List.append_nil]
  exact le_trans (List.length_filter_le _ _) (by simp)

/-- A grid neighbor is at distance exactly one. -/
theorem md_neighbor_eq_one {width height : Int} {p q : Pos}
    (h : q ∈ grid_neighbors width height p) : md p q = 1 := by
  rcases (mem_grid_neighbors.mp h).2 with rfl | rfl | rfl | rfl <;>
    · unfold md
      simp

/-- Stepping to a neighbor changes any distance by at most one. -/
theorem md_neighbor_le {width height : Int} {s p q : Pos}
    (h : q ∈ grid_neighbors width height p) : md s q ≤ md s p + 1 := by
  have := md_triangle s p q
  rw [md_neighbor_eq_one h] at this
  exact this

/-- The grid universe holds exactly the in-bounds positions. -/
theorem mem_gridUniverse {width height : Int} {p : Pos} :
    p ∈ gridUniverse width height ↔ inBounds width height p := by
  unfold gridUniverse inBounds
  simp only [Finset.mem_image, Finset.mem_product, Finset.mem_range]
  constructor
  · rintro ⟨⟨a, b⟩, ⟨ha, hb⟩, rfl⟩
    refine ⟨by positivity, ?_, by positivity, ?_⟩ <;> omega
  · rintro ⟨h1, h2, h3, h4⟩
    exact ⟨(p.1.toNat, p.2.toNat), ⟨by omega, by omega⟩,
      by simp [Int.toNat_of_nonneg h1, Int.toNat_of_nonneg h3]⟩

/-- The grid universe has width times height cells. -/
theorem gridUniverse_card (width height : Int) :
    (gridUniverse width height).card = width.toNat * height.toNat := by
  unfold gridUniverse
  rw [Finset.card_image_of_injective]
  · simp [Finset.card_product]
  · intro a b hab
    obtain ⟨h1, h2⟩ := Prod.mk.injEq .. ▸ hab
    exact Prod.ext (by omega) (by omega)

/-- The canonical path starts at the start. -/
theorem canonPos_zero (start goal : Pos) : canonPos start goal 0 = start := by
  unfold canonPos
  simp only [Nat.zero_le, if_true, Nat.cast_zero]
  split_ifs <;> simp

/-- Step i of the canonical path is at distance exactly i from the start. -/
theorem md_start_canonPos (start goal : Pos) (i : ℕ) (hi : i ≤ md start goal) :
    md start (canonPos start goal i) = i := by
  unfold md at hi ⊢
  unfold canonPos
  split_ifs with h1 h2 h3 <;> dsimp only <;> omega

/-- Step i of the canonical path is at distance md minus i from the goal. -/
theorem md_canonPos_goal (start goal : Pos) (i : ℕ) (hi : i ≤ md start goal) :
    md (canonPos start goal i) goal = md start goal - i := by
  unfold md at hi ⊢
  unfold canonPos
  split_ifs with h1 h2 h3 <;> dsimp only <;> omega

/-- After md steps the canonical path reaches the goal. -/
theorem canonPos_top (start goal : Pos) :
    canonPos start goal (md start goal) = goal := by
  apply md_eq_zero
  rw [md_canonPos_goal start goal _ (le_refl _)]
  omega

/-- The canonical path stays on the grid. -/
theorem canonPos_inBounds {width height : Int} {start goal : Pos}
    (hs : inBounds width height start) (hg : inBounds width height goal)
    (i : ℕ) (hi : i ≤ md start goal) :
    inBounds width height (canonPos start goal i) := by
  unfold inBounds at hs hg ⊢
  unfold md at hi
  unfold canonPos
  split_ifs with h1 h2 h3 <;> dsimp only <;> omega

/-- Consecutive canonical positions are grid neighbors. -/
theorem canonPos_step {width height : Int} {start goal : Pos}
    (hs : inBounds width height start) (hg : inBounds width height goal)
    (i : ℕ) (hi : i < md start goal) :
    canonPos start goal (i + 1) ∈
      grid_neighbors width height (canonPos start goal i) := by
  rw [mem_grid_neighbors]
  refine ⟨canonPos_inBounds hs hg _ (by omega), ?_⟩
  unfold md at hi
  unfold canonPos
  split_ifs <;> dsimp only <;> simp only [Prod.mk.injEq, and_true, true_and] <;> omega

/-- A contiguous route is at least as long as the grid distance between its endpoints. -/
theorem chainStep_md_le (width height : Int) :
    ∀ (l : List Pos) (a b : Pos), chainStep (grid_neighbors width height) l = true →
      l.head? = some a → l.getLast? = some b → md a b ≤ l.length - 1 := by
  intro l
  induction l with
  | nil => intro a b _ h; simp at h
  | cons x t ih =>
    intro a b hc hh hl
    obtain rfl : a = x := by simpa using hh.symm
    cases t with
    | nil =>
      obtain rfl : b = a := by simpa using hl.symm
      simp [md_self]
    | cons y t' =>
      unfold chainStep at hc
      rw [Bool.and_eq_true, decide_eq_true_eq] at hc
      rw [List.getLast?_cons_cons] at hl
      have hrec := ih y b hc.2 (by simp) hl
      have htri := md_triangle a y b
      have hstep := md_neighbor_eq_one hc.1
      simp only [List.length_cons] at hrec ⊢
      omega

/-- The admissibility bound: a NodeZ node's g is at least the true start distance. -/
theorem NodeZ_g_ge {width height : Int} {start goal : Pos} {n : AStarNode}
    (h : NodeZ width height start goal n) : (md start n.position : ℚ) ≤ n.g_cost := by
  obtain ⟨hh, hl, hc, hne, hg, -⟩ := h
  have hle := chainStep_md_le width height n.path start n.position hc hh hl
  rw [hg]
  exact_mod_cast hle

/-- Closed form of one zero-cost expansion step: skip closed cells, push with g plus one and the exact manhattan heuristic when the g map improves. -/
theorem expandZ_eq (goal : Pos) (closed : Finset Pos) (cur : AStarNode)
    (acc : List AStarNode × (Pos → Option ℚ)) (q : Pos) :
    expandNeighbor goal (fun _ => true) (fun _ => 0) (fun _ => 0) closed cur acc q =
      if q ∈ closed then acc
      else if (acc.2 q).all (fun old => decide (cur.g_cost + 1 < old)) then
        (acc.1 ++ [{ position := q, g_cost := cur.g_cost + 1,
                     h_cost := (md q goal : ℚ), path := cur.path ++ [q] }],
         fun p => if p = q then some (cur.g_cost + 1) else acc.2 p)
      else acc := by
  unfold expandNeighbor
  simp only [Bool.not_true, Bool.false_eq_true, if_false]
  by_cases hclosed : q ∈ closed
  · rw [if_pos hclosed, if_pos hclosed]
  · rw [if_neg hclosed, if_neg hclosed]
    have hg : cur.g_cost + 1 + 0 + 0 = cur.g_cost + 1 := by ring
    have hh : manhattan_distance q goal *
        (1 + AI_ASTAR_HEURISTIC_RISK_WEIGHT * ((0 : ℚ) / AI_ASTAR_RISK_PENALTY_MULTIPLIER))
        = (md q goal : ℚ) := by
      rw [manhattan_eq_md]
      norm_num [AI_ASTAR_HEURISTIC_RISK_WEIGHT, AI_ASTAR_RISK_PENALTY_MULTIPLIER]
    cases hmq : acc.2 q with
    | none => simp [hmq, hg, hh, manhattan_eq_md]
    | some old =>
      by_cases hlt : cur.g_cost + 1 < old
      · simp [hmq, hg, hh, hlt, manhattan_eq_md]
      · simp [hmq, hg, hh, hlt, manhattan_eq_md]

/-- The expansion fold never increases a recorded g map entry past a bound. -/
theorem expandZ_foldl_le (goal : Pos) (closed : Finset Pos) (cur : AStarNode)
    (l : List Pos) (acc : List AStarNode × (Pos → Option ℚ)) (p : Pos) (c : ℚ)
    (h : ∃ v, acc.2 p = some v ∧ v ≤ c) :
    ∃ v, (l.foldl (expandNeighbor goal (fun _ => true) (fun _ => 0) (fun _ => 0)
      closed cur) acc).2 p = some v ∧ v ≤ c := by
  induction l generalizing acc with
  | nil => exact h
  | cons q l ih =>
    rw [List.foldl_cons]
    apply ih
    rw [expandZ_eq]
    split_ifs with h1 h2
    · exact h
    · dsimp only
      by_cases hpq : p = q
      · subst hpq
        obtain ⟨v, hv, hvc⟩ := h
        rw [hv] at h2
        simp only [Option.all_some, decide_eq_true_eq] at h2
        exact ⟨cur.g_cost + 1, by simp, le_trans (le_of_lt h2) hvc⟩
      · simpa [hpq] using h
    · exact h

/-- The expansion fold keeps every g map entry at or above the true start distance. -/
theorem expandZ_foldl_low {width height : Int} {start : Pos} (goal : Pos)
    (closed : Finset Pos) (cur : AStarNode)
    (hcur : (md start cur.position : ℚ) ≤ cur.g_cost) :
    ∀ (l : List Pos) (acc : List AStarNode × (Pos → Option ℚ)),
    (∀ q ∈ l, q ∈ grid_neighbors width height cur.position) →
    (∀ p v, acc.2 p = some v → (md start p : ℚ) ≤ v) →
    ∀ p v, (l.foldl (expandNeighbor goal (fun _ => true) (fun _ => 0) (fun _ => 0)
      closed cur) acc).2 p = some v → (md start p : ℚ) ≤ v := by
  intro l
  induction l with
  | nil => intro acc _ hacc; exact hacc
  | cons q l ih =>
    intro acc hsub hacc
    rw [List.foldl_cons]
    refine ih _ (fun x hx => hsub x (List.mem_cons_of_mem _ hx)) ?_
    rw [expandZ_eq]
    split_ifs with h1 h2
    · exact hacc
    · dsimp only
      intro p v hv
      by_cases hpq : p = q
      · subst hpq
        rw [if_pos rfl] at hv
        obtain rfl := Option.some.inj hv
        have hstep := md_neighbor_le (s := start) (hsub p (List.mem_cons_self ..))
        calc (md start p : ℚ) ≤ ((md start cur.position + 1 : ℕ) : ℚ) := by
              exact_mod_cast hstep
          _ ≤ cur.g_cost + 1 := by push_cast; linarith
      · rw [if_neg hpq] at hv
        exact hacc p v hv
    · exact hacc

/-- An entry already holding the exact start distance survives the expansion fold unchanged. -/
theorem expandZ_foldl_keep {width height : Int} {start : Pos} (goal : Pos)
    (closed : Finset Pos) (cur : AStarNode)
    (hcur : (md start cur.position : ℚ) ≤ cur.g_cost) (p : Pos) :
    ∀ (l : List Pos) (acc : List AStarNode × (Pos → Option ℚ)),
    (∀ q ∈ l, q ∈ grid_neighbors width height cur.position) →
    acc.2 p = some ((md start p : ℕ) : ℚ) →
    (l.foldl (expandNeighbor goal (fun _ => true) (fun _ => 0) (fun _ => 0)
      closed cur) acc).2 p = some ((md start p : ℕ) : ℚ) := by
  intro l
  induction l with
  | nil => intro acc _ hp; exact hp
  | cons q l ih =>
    intro acc hsub hp
    rw [List.foldl_cons]
    refine ih _ (fun x hx => hsub x (List.mem_cons_of_mem _ hx)) ?_
    rw [expandZ_eq]
    split_ifs with h1 h2
    · exact hp
    · dsimp only
      by_cases hpq : p = q
      · subst hpq
        rw [hp] at h2
        simp only [Option.all_some, decide_eq_true_eq] at h2
        have hstep := md_neighbor_le (s := start) (hsub p (List.mem_cons_self ..))
        have : ((md start p : ℕ) : ℚ) ≤ cur.g_cost + 1 := by
          calc ((md start p : ℕ) : ℚ) ≤ ((md start cur.position + 1 : ℕ) : ℚ) := by
                exact_mod_cast hstep
            _ ≤ cur.g_cost + 1 := by push_cast; linarith
        linarith
      · rw [if_neg hpq]
        exact hp
    · exact hp

/-- Every unclosed g map entry after the fold is witnessed by a node of the base list or a pushed node. -/
theorem expandZ_foldl_open (goal : Pos) (closed : Finset Pos) (cur : AStarNode)
    (l : List Pos) (base : List AStarNode) (acc : List AStarNode × (Pos → Option ℚ))
    (hacc : ∀ p, p ∉ closed → ∀ v, acc.2 p = some v →
      ∃ n ∈ base ++ acc.1, n.position = p ∧ n.g_cost = v) :
    ∀ p, p ∉ closed → ∀ v,
      (l.foldl (expandNeighbor goal (fun _ => true) (fun _ => 0) (fun _ => 0)
        closed cur) acc).2 p = some v →
      ∃ n ∈ base ++ (l.foldl (expandNeighbor goal (fun _ => true) (fun _ => 0)
        (fun _ => 0) closed cur) acc).1, n.position = p ∧ n.g_cost = v := by
  induction l generalizing acc with
  | nil => exact hacc
  | cons q l ih =>
    rw [List.foldl_cons]
    apply ih
    rw [expandZ_eq]
    split_ifs with h1 h2
    · exact hacc
    · dsimp only
      intro p hpc v hv
      by_cases hpq : p = q
      · subst hpq
        rw [if_pos rfl] at hv
        obtain rfl := Option.some.inj hv
        refine ⟨{ position := p
                  g_cost := cur.g_cost + 1
                  h_cost := (md p goal : ℚ)
                  path := cur.path ++ [p] }, ?_, rfl, rfl⟩
        simp
      · rw [if_neg hpq] at hv
        obtain ⟨n, hn, hnp, hng⟩ := hacc p hpc v hv
        refine ⟨n, ?_, hnp, hng⟩
        rcases List.mem_append.mp hn with h' | h'
        · exact List.mem_append.mpr (Or.inl h')
        · exact List.mem_append.mpr (Or.inr (List.mem_append.mpr (Or.inl h')))
    · exact hacc

/-- Every node pushed by the fold has a g map entry at most its g. -/
theorem expandZ_foldl_set (goal : Pos) (closed : Finset Pos) (cur : AStarNode)
    (l : List Pos) (acc : List AStarNode × (Pos → Option ℚ))
    (hacc : ∀ n ∈ acc.1, ∃ v, acc.2 n.position = some v ∧ v ≤ n.g_cost) :
    ∀ n ∈ (l.foldl (expandNeighbor goal (fun _ => true) (fun _ => 0) (fun _ => 0)
      closed cur) acc).1,
      ∃ v, (l.foldl (expandNeighbor goal (fun _ => true) (fun _ => 0) (fun _ => 0)
        closed cur) acc).2 n.position = some v ∧ v ≤ n.g_cost := by
  induction l generalizing acc with
  | nil => exact hacc
  | cons q l ih =>
    rw [List.foldl_cons]
    apply ih
    rw [expandZ_eq]
    split_ifs with h1 h2
    · exact hacc
    · dsimp only
      intro n hn
      rcases List.mem_append.mp hn with h' | h'
      · obtain ⟨v, hv, hvg⟩ := hacc n h'
        by_cases hpq : n.position = q
        · rw [hpq] at hv
          rw [hv] at h2
          simp only [Option.all_some, decide_eq_true_eq] at h2
          exact ⟨cur.g_cost + 1, by simp [hpq], le_trans (le_of_lt h2) hvg⟩
        · exact ⟨v, by simpa [hpq] using hv, hvg⟩
      · obtain rfl := List.mem_singleton.mp h'
        exact ⟨cur.g_cost + 1, by simp, le_refl _⟩
    · exact hacc

/-- Folding over a list containing an unclosed cell leaves it a g map entry at most the tentative g. -/
theorem expandZ_foldl_touch (goal : Pos) (closed : Finset Pos) (cur : AStarNode)
    (q0 : Pos) (hq0c : q0 ∉ closed) :
    ∀ (l : List Pos) (acc : List AStarNode × (Pos → Option ℚ)), q0 ∈ l →
    ∃ v, (l.foldl (expandNeighbor goal (fun _ => true) (fun _ => 0) (fun _ => 0)
      closed cur) acc).2 q0 = some v ∧ v ≤ cur.g_cost + 1 := by
  intro l
  induction l with
  | nil => intro acc h; simp at h
  | cons q l ih =>
    intro acc hq0
    rw [List.foldl_cons]
    by_cases hqq : q0 = q
    · subst hqq
      apply expandZ_foldl_le
      rw [expandZ_eq]
      rw [if_neg hq0c]
      cases hmq : acc.2 q0 with
      | none =>
        simp only [hmq, Option.all_none, if_true]
        exact ⟨cur.g_cost + 1, by simp, le_refl _⟩
      | some old =>
        by_cases hlt : cur.g_cost + 1 < old
        · simp only [hmq, Option.all_some, decide_eq_true_eq, hlt, if_true]
          exact ⟨cur.g_cost + 1, by simp, le_refl _⟩
        · simp only [hmq, Option.all_some, decide_eq_true_eq, hlt, if_false]
          exact ⟨old, rfl, by linarith⟩
    · exact ih _ (List.mem_of_ne_of_mem hqq hq0)

/-- The fold pushes at most one node per folded neighbor. -/
theorem expandZ_foldl_length (goal : Pos) (closed : Finset Pos) (cur : AStarNode)
    (l : List Pos) (acc : List AStarNode × (Pos → Option ℚ)) :
    (l.foldl (expandNeighbor goal (fun _ => true) (fun _ => 0) (fun _ => 0)
      closed cur) acc).1.length ≤ acc.1.length + l.length := by
  induction l generalizing acc with
  | nil => simp
  | cons q l ih =>
    rw [List.foldl_cons]
    refine le_trans (ih _) ?_
    rw [expandZ_eq]
    split_ifs with h1 h2 <;>
      simp only [List.length_append, List.length_cons, List.length_nil] <;> omega

/-- Every popped node of an invariant-satisfying open list lies on a
geodesic: its g is the exact start distance and its position splits the
start-goal distance, squeezed between the admissible bound and the
frontier witness on the canonical path. -/
theorem popZ_squeeze {width height : Int} {start goal : Pos}
    {open_set : List AStarNode} {closed : Finset Pos} {gmap : Pos → Option ℚ}
    {cur : AStarNode} {rest : List AStarNode}
    (hinv : AStarInv width height start goal open_set closed gmap)
    (hpop : popMin open_set = some (cur, rest)) :
    cur.g_cost = ((md start cur.position : ℕ) : ℚ) ∧
    md start cur.position + md cur.position goal = md start goal := by
  obtain ⟨I1, I2, I3, I4, I5, I6, I7, I8, I9, i, hi, hpre, hunc, w, hw, hwpos, hwg⟩ := hinv
  have hcurZ := I1 cur (popMin_mem hpop)
  have hwZ := I1 w hw
  have hcurg := NodeZ_g_ge hcurZ
  have hcurh : cur.h_cost = ((md cur.position goal : ℕ) : ℚ) := hcurZ.2.2.2.2.2
  have hwh := hwZ.2.2.2.2.2
  rw [hwpos, md_canonPos_goal start goal i hi] at hwh
  have hmin := popMin_min hpop w hw
  unfold AStarNode.f_cost at hmin
  rw [hcurh, hwh, hwg] at hmin
  have hq1 : ((i : ℕ) : ℚ) + ((md start goal - i : ℕ) : ℚ) =
      ((md start goal : ℕ) : ℚ) := by
    rw [Nat.cast_sub hi]
    ring
  rw [hq1] at hmin
  have htri := md_triangle start cur.position goal
  have htq : ((md start goal : ℕ) : ℚ) ≤
      ((md start cur.position : ℕ) : ℚ) + ((md cur.position goal : ℕ) : ℚ) := by
    exact_mod_cast htri
  constructor
  · linarith
  · have h2 : ((md start cur.position : ℕ) : ℚ) + ((md cur.position goal : ℕ) : ℚ) =
        ((md start goal : ℕ) : ℚ) := by linarith
    exact_mod_cast h2

/-- Every node pushed by the zero-cost expansion fold from an empty push
accumulator satisfies the NodeZ invariant and sits on the grid. -/
theorem expandZ_foldl_NodeZ {width height : Int} {start goal : Pos}
    (closed : Finset Pos) (cur : AStarNode)
    (hcur : NodeZ width height start goal cur) (gmap : Pos → Option ℚ)
    (n : AStarNode)
    (hn : n ∈ ((grid_neighbors width height cur.position).foldl
      (expandNeighbor goal (fun _ => true) (fun _ => 0) (fun _ => 0) closed cur)
      ([], gmap)).1) :
    NodeZ width height start goal n ∧ n.position ∈ gridUniverse width height := by
  rcases expand_foldl_mem _ _ _ _ _ _ _ _ _ hn with h0 |
    ⟨q, hq, _, _, hpos, hpath, hg, hh⟩
  · exact absurd h0 (List.not_mem_nil n)
  · obtain ⟨ch, cl, cc, cne, cg, -⟩ := hcur
    have hL : 1 ≤ cur.path.length := List.length_pos.mpr cne
    constructor
    · refine ⟨?_, ?_, ?_, ?_, ?_, ?_⟩
      · rw [hpath]
        cases hcp : cur.path with
        | nil => rw [hcp] at ch; simp at ch
        | cons a t => rw [hcp] at ch; simpa using ch
      · rw [hpath, hpos, List.getLast?_concat]
      · rw [hpath]
        exact chainStep_append (grid_neighbors width height) cur.path
          cur.position q cc cl hq
      · rw [hpath]
        simp
      · rw [hg, cg, hpath]
        simp only [List.length_append, List.length_cons, List.length_nil,
          Nat.add_sub_cancel]
        rw [Nat.cast_sub hL]
        push_cast
        ring
      · rw [hh, hpos, manhattan_eq_md]
        norm_num [AI_ASTAR_HEURISTIC_RISK_WEIGHT, AI_ASTAR_RISK_PENALTY_MULTIPLIER]
    · rw [hpos]
      exact mem_gridUniverse.mpr (mem_grid_neighbors.mp hq).1

/-- Skipping an already-closed popped node preserves the loop invariant:
the remainder of the open list still satisfies it with the same closed
set and g map. -/
theorem AStarInv_skip {width height : Int} {start goal : Pos}
    {open_set : List AStarNode} {closed : Finset Pos} {gmap : Pos → Option ℚ}
    {cur : AStarNode} {rest : List AStarNode}
    (hinv : AStarInv width height start goal open_set closed gmap)
    (hpop : popMin open_set = some (cur, rest))
    (hcl : cur.position ∈ closed) :
    AStarInv width height start goal rest closed gmap := by
  obtain ⟨l1, l2, hOP, hR⟩ := popMin_split hpop
  have hmr : ∀ n, n ∈ open_set → n.position ∉ closed → n ∈ rest := by
    intro n hn hnp
    rw [hOP] at hn
    rw [hR]
    rcases List.mem_append.mp hn with h | h
    · exact List.mem_append.mpr (Or.inl h)
    · rcases List.mem_cons.mp h with rfl | h
      · exact absurd hcl hnp
      · exact List.mem_append.mpr (Or.inr h)
  have hsub := popMin_rest_mem hpop
  obtain ⟨I1, I2, I3, I4, I5, I6, I7, I8, I9, i, hi, hpre, hunc, w, hw, hwpos, hwg⟩ := hinv
  refine ⟨fun n hn => I1 n (hsub n hn), fun n hn => I2 n (hsub n hn), I3, I4, I5,
    ?_, fun n hn => I7 n (hsub n hn), I8, I9, i, hi, hpre, hunc, w, ?_, hwpos, hwg⟩
  · intro p hp v hv
    obtain ⟨n, hn, hnp, hng⟩ := I6 p hp v hv
    exact ⟨n, hmr n hn (by rw [hnp]; exact hp), hnp, hng⟩
  · exact hmr w hw (by rw [hwpos]; exact hunc)

/-- Closing a popped unclosed non-goal node and folding its neighbors
through the zero-cost expansion preserves the loop invariant. -/
theorem AStarInv_step {width height : Int} {start goal : Pos}
    {open_set : List AStarNode} {closed : Finset Pos} {gmap : Pos → Option ℚ}
    {cur : AStarNode} {rest : List AStarNode}
    (hs : inBounds width height start) (hg : inBounds width height goal)
    (hinv : AStarInv width height start goal open_set closed gmap)
    (hpop : popMin open_set = some (cur, rest))
    (hgoal : cur.position ≠ goal) (hcl : cur.position ∉ closed) :
    AStarInv width height start goal
      (rest ++ ((grid_neighbors width height cur.position).foldl
        (expandNeighbor goal (fun _ => true) (fun _ => 0) (fun _ => 0)
          (insert cur.position closed) cur) ([], gmap)).1)
      (insert cur.position closed)
      ((grid_neighbors width height cur.position).foldl
        (expandNeighbor goal (fun _ => true) (fun _ => 0) (fun _ => 0)
          (insert cur.position closed) cur) ([], gmap)).2 := by
  have hsq := popZ_squeeze hinv hpop
  obtain ⟨l1, l2, hOP, hR⟩ := popMin_split hpop
  have hmr : ∀ n, n ∈ open_set → n.position ≠ cur.position → n ∈ rest := by
    intro n hn hne
    rw [hOP] at hn
    rw [hR]
    rcases List.mem_append.mp hn with h | h
    · exact List.mem_append.mpr (Or.inl h)
    · rcases List.mem_cons.mp h with rfl | h
      · exact absurd rfl hne
      · exact List.mem_append.mpr (Or.inr h)
  have hsub := popMin_rest_mem hpop
  obtain ⟨I1, I2, I3, I4, I5, I6, I7, I8, I9, i, hi, hpre, hunc, w, hw, hwpos, hwg⟩ := hinv
  have hcurZ := I1 cur (popMin_mem hpop)
  have hcurU := I2 cur (popMin_mem hpop)
  have hglow := NodeZ_g_ge hcurZ
  have hgval : gmap cur.position = some ((md start cur.position : ℕ) : ℚ) := by
    obtain ⟨v, hv, hvle⟩ := I7 cur (popMin_mem hpop)
    have hlow := I5 cur.position v hv
    rw [hsq.1] at hvle
    rw [hv, le_antisymm hvle hlow]
  set E := (grid_neighbors width height cur.position).foldl
      (expandNeighbor goal (fun _ => true) (fun _ => 0) (fun _ => 0)
        (insert cur.position closed) cur) ([], gmap) with hE
  have hI1 : ∀ n ∈ rest ++ E.1,
      NodeZ width height start goal n ∧ n.position ∈ gridUniverse width height := by
    intro n hn
    rcases List.mem_append.mp hn with h | h
    · exact ⟨I1 n (hsub n h), I2 n (hsub n h)⟩
    · exact expandZ_foldl_NodeZ (insert cur.position closed) cur hcurZ gmap n
        (hE ▸ h)
  have hgoalnc : goal ∉ insert cur.position closed := fun h =>
    (Finset.mem_insert.mp h).elim (fun h1 => hgoal h1.symm) I4
  have hI5 : ∀ p v, E.2 p = some v → (md start p : ℚ) ≤ v := by
    rw [hE]
    exact expandZ_foldl_low goal (insert cur.position closed) cur hglow _
      ([], gmap) (fun q hq => hq) I5
  have hI6 : ∀ p, p ∉ insert cur.position closed → ∀ v, E.2 p = some v →
      ∃ n ∈ rest ++ E.1, n.position = p ∧ n.g_cost = v := by
    rw [hE]
    refine expandZ_foldl_open goal (insert cur.position closed) cur _ rest
      ([], gmap) ?_
    intro p hp v hv
    have hpc : p ∉ closed := fun h => hp (Finset.mem_insert_of_mem h)
    obtain ⟨n, hn, hnp, hng⟩ := I6 p hpc v hv
    have hne : n.position ≠ cur.position := by
      intro h
      apply hp
      rw [← hnp, h]
      exact Finset.mem_insert_self _ _
    exact ⟨n, List.mem_append.mpr (Or.inl (hmr n hn hne)), hnp, hng⟩
  have hI7 : ∀ n ∈ rest ++ E.1,
      ∃ v, E.2 n.position = some v ∧ v ≤ n.g_cost := by
    intro n hn
    rcases List.mem_append.mp hn with h | h
    · rw [hE]
      exact expandZ_foldl_le goal (insert cur.position closed) cur _ ([], gmap)
        n.position n.g_cost (I7 n (hsub n h))
    · rw [hE]
      exact expandZ_foldl_set goal (insert cur.position closed) cur _ ([], gmap)
        (fun m hm => absurd hm (List.not_mem_nil m)) n (hE ▸ h)
  have hI8 : ∀ j, j ≤ md start goal →
      canonPos start goal j ∈ insert cur.position closed →
      E.2 (canonPos start goal j) = some (j : ℚ) := by
    intro j hj hjc
    have hkeep : gmap (canonPos start goal j) =
        some ((md start (canonPos start goal j) : ℕ) : ℚ) →
        E.2 (canonPos start goal j) =
          some ((md start (canonPos start goal j) : ℕ) : ℚ) := by
      intro h
      rw [hE]
      exact expandZ_foldl_keep goal (insert cur.position closed) cur hglow
        (canonPos start goal j) _ ([], gmap) (fun q hq => hq) h
    rw [md_start_canonPos start goal j hj] at hkeep
    rcases Finset.mem_insert.mp hjc with heq | hold
    · refine hkeep ?_
      have hmd : md start cur.position = j := by
        rw [← heq, md_start_canonPos start goal j hj]
      rw [heq, hgval, hmd]
    · exact hkeep (I8 j hj hold)
  have hI9 : ∀ j, j < md start goal →
      canonPos start goal j ∈ insert cur.position closed →
      ∃ v ≤ ((j + 1 : ℕ) : ℚ), E.2 (canonPos start goal (j + 1)) = some v := by
    intro j hj hjc
    rcases Finset.mem_insert.mp hjc with heq | hold
    · by_cases hnext : canonPos start goal (j + 1) ∈ closed
      · have h8 := I8 (j + 1) (by omega) hnext
        obtain ⟨v, hv, hvle⟩ := expandZ_foldl_le goal (insert cur.position closed)
          cur _ ([], gmap) (canonPos start goal (j + 1)) ((j + 1 : ℕ) : ℚ)
          ⟨_, h8, le_refl _⟩
        exact ⟨v, hvle, by rw [hE]; exact hv⟩
      · have hne : canonPos start goal (j + 1) ≠ cur.position := by
          rw [← heq]
          intro h
          have h1 := md_start_canonPos start goal (j + 1) (by omega)
          have h2 := md_start_canonPos start goal j (le_of_lt hj)
          rw [h] at h1
          omega
        have hnc : canonPos start goal (j + 1) ∉ insert cur.position closed :=
          fun h => (Finset.mem_insert.mp h).elim hne hnext
        have hmem : canonPos start goal (j + 1) ∈
            grid_neighbors width height cur.position := by
          rw [← heq]
          exact canonPos_step hs hg j hj
        obtain ⟨v, hv, hvle⟩ := expandZ_foldl_touch goal
          (insert cur.position closed) cur _ hnc
          (grid_neighbors width height cur.position) ([], gmap) hmem
        refine ⟨v, ?_, by rw [hE]; exact hv⟩
        have hgj : cur.g_cost = (j : ℚ) := by
          rw [hsq.1, ← heq, md_start_canonPos start goal j (le_of_lt hj)]
        rw [hgj] at hvle
        push_cast at hvle ⊢
        linarith
    · obtain ⟨v, hvle, hv⟩ := I9 j hj hold
      obtain ⟨v2, hv2, hvle2⟩ := expandZ_foldl_le goal (insert cur.position closed)
        cur _ ([], gmap) (canonPos start goal (j + 1)) ((j + 1 : ℕ) : ℚ)
        ⟨v, hv, hvle⟩
      exact ⟨v2, hvle2, by rw [hE]; exact hv2⟩
  have hI10 : ∃ k ≤ md start goal,
      (∀ j < k, canonPos start goal j ∈ insert cur.position closed) ∧
      canonPos start goal k ∉ insert cur.position closed ∧
      ∃ n ∈ rest ++ E.1, n.position = canonPos start goal k ∧
        n.g_cost = (k : ℚ) := by
    by_cases hceq : canonPos start goal i = cur.position
    · have hex : ∃ j, j ≤ md start goal ∧
          canonPos start goal j ∉ insert cur.position closed :=
        ⟨md start goal, le_refl _, by rw [canonPos_top]; exact hgoalnc⟩
      have hspec := Nat.find_spec hex
      have hprefix : ∀ j, j < Nat.find hex →
          canonPos start goal j ∈ insert cur.position closed := by
        intro j hj
        by_contra hc
        exact Nat.find_min hex hj ⟨le_trans (le_of_lt hj) hspec.1, hc⟩
      have hii : i < Nat.find hex := by
        by_contra hc
        push_neg at hc
        rcases lt_or_eq_of_le hc with h | h
        · exact hspec.2 (Finset.mem_insert_of_mem (hpre (Nat.find hex) h))
        · have h2 := hspec.2
          rw [h, hceq] at h2
          exact h2 (Finset.mem_insert_self _ _)
      have hk : Nat.find hex - 1 < md start goal := by omega
      have hkc : canonPos start goal (Nat.find hex - 1) ∈
          insert cur.position closed := hprefix _ (by omega)
      obtain ⟨v, hvle, hv⟩ := hI9 (Nat.find hex - 1) hk hkc
      have hstep1 : Nat.find hex - 1 + 1 = Nat.find hex := by omega
      rw [hstep1] at hvle hv
      have hlow := hI5 (canonPos start goal (Nat.find hex)) v hv
      rw [md_start_canonPos start goal _ hspec.1] at hlow
      have hveq : v = ((Nat.find hex : ℕ) : ℚ) := le_antisymm hvle hlow
      obtain ⟨n, hn, hnp, hng⟩ := hI6 (canonPos start goal (Nat.find hex))
        hspec.2 v hv
      exact ⟨Nat.find hex, hspec.1, hprefix, hspec.2, n, hn, hnp,
        by rw [hng, hveq]⟩
    · refine ⟨i, hi, fun j hj => Finset.mem_insert_of_mem (hpre j hj),
        fun h => (Finset.mem_insert.mp h).elim hceq hunc, w,
        List.mem_append.mpr (Or.inl (hmr w hw (by rw [hwpos]; exact hceq))),
        hwpos, hwg⟩
  exact ⟨fun n hn => (hI1 n hn).1, fun n hn => (hI1 n hn).2,
    Finset.insert_subset_iff.mpr ⟨hcurU, I3⟩, hgoalnc, hI5, hI6, hI7, hI8, hI9,
    hI10⟩

/-- The seed state of astar_search satisfies the zero-cost loop
invariant: one start node, an empty closed set, and a g map holding 0 at
the start. -/
theorem AStarInv_init {width height : Int} {start goal : Pos}
    (hs : inBounds width height start) :
    AStarInv width height start goal
      [{ position := start, g_cost := 0, h_cost := manhattan_distance start goal,
         path := [start] }] ∅ (fun p => if p = start then some 0 else none) := by
  refine ⟨?_, ?_, Finset.empty_subset _, Finset.not_mem_empty _, ?_, ?_, ?_,
    ?_, ?_, ?_⟩
  · intro n hn
    obtain rfl := List.mem_singleton.mp hn
    exact ⟨rfl, by simp, rfl, by simp, by simp, manhattan_eq_md start goal⟩
  · intro n hn
    obtain rfl := List.mem_singleton.mp hn
    exact mem_gridUniverse.mpr hs
  · intro p v hv
    simp only at hv
    by_cases hp : p = start
    · subst hp
      rw [if_pos rfl] at hv
      obtain rfl := Option.some.inj hv
      simp [md_self]
    · rw [if_neg hp] at hv
      exact absurd hv (by simp)
  · intro p hp v hv
    simp only at hv
    by_cases hps : p = start
    · subst hps
      rw [if_pos rfl] at hv
      obtain rfl := Option.some.inj hv
      exact ⟨_, List.mem_singleton_self _, rfl, rfl⟩
    · rw [if_neg hps] at hv
      exact absurd hv (by simp)
  · intro n hn
    obtain rfl := List.mem_singleton.mp hn
    exact ⟨0, by simp, le_refl _⟩
  · intro j hj hjc
    exact absurd hjc (Finset.not_mem_empty _)
  · intro j hj hjc
    exact absurd hjc (Finset.not_mem_empty _)
  · exact ⟨0, Nat.zero_le _, fun j hj => absurd hj (Nat.not_lt_zero j),
      Finset.not_mem_empty _, _, List.mem_singleton_self _,
      (canonPos_zero start goal).symm, by simp⟩

/-- On the all-passable zero-cost grid, astarLoop run from any
invariant-satisfying state with enough fuel returns a start-goal path of
the exact manhattan length together with its cost. -/
theorem astarZ_run {width height : Int} {start goal : Pos}
    (hs : inBounds width height start) (hg : inBounds width height goal) :
    ∀ (fuel : ℕ) (open_set : List AStarNode) (closed : Finset Pos)
      (gmap : Pos → Option ℚ),
      AStarInv width height start goal open_set closed gmap →
      open_set.length + 5 * ((gridUniverse width height).card - closed.card) <
        fuel →
      ∃ path : List Pos,
        astarLoop goal (fun _ => true) (grid_neighbors width height)
          (fun _ => 0) (fun _ => 0) fuel open_set closed gmap =
          (path, some ((md start goal : ℕ) : ℚ)) ∧
        path.head? = some start ∧ path.getLast? = some goal ∧
        chainStep (grid_neighbors width height) path = true ∧
        path.length = md start goal + 1 := by
  intro fuel
  induction fuel with
  | zero =>
    intro open_set closed gmap _ hm
    omega
  | succ fuel ih =>
    intro open_set closed gmap hinv hm
    have hne : ∃ p, popMin open_set = some p := by
      rcases hO : popMin open_set with _ | p
      · obtain ⟨i, hi, hpre, hunc, w, hw, hwpos, hwg⟩ :=
          hinv.2.2.2.2.2.2.2.2.2
        rw [popMin_eq_none.mp hO] at hw
        exact absurd hw (List.not_mem_nil w)
      · exact ⟨p, rfl⟩
    obtain ⟨⟨cur, rest⟩, hpop⟩ := hne
    have hcurZ := hinv.1 cur (popMin_mem hpop)
    unfold astarLoop
    rw [hpop]
    simp only
    by_cases hgoal : cur.position = goal
    · rw [if_pos hgoal]
      have hsq := popZ_squeeze hinv hpop
      have hge : cur.g_cost = ((md start goal : ℕ) : ℚ) := by
        rw [hsq.1, hgoal]
      have hlen1 : cur.path.length - 1 = md start goal := by
        have hgz := hcurZ.2.2.2.2.1
        have h2 : ((cur.path.length - 1 : ℕ) : ℚ) = ((md start goal : ℕ) : ℚ) := by
          rw [← hgz, hge]
        exact_mod_cast h2
      have hpos : 0 < cur.path.length := List.length_pos.mpr hcurZ.2.2.2.1
      refine ⟨cur.path, by rw [hge], hcurZ.1, ?_, hcurZ.2.2.1, by omega⟩
      rw [← hgoal]
      exact hcurZ.2.1
    · rw [if_neg hgoal]
      by_cases hclosed : cur.position ∈ closed
      · rw [if_pos hclosed]
        refine ih rest closed gmap (AStarInv_skip hinv hpop hclosed) ?_
        obtain ⟨l1, l2, hOP, hR⟩ := popMin_split hpop
        have h1 : open_set.length = l1.length + (l2.length + 1) := by
          rw [hOP]
          simp
        have h2 : rest.length = l1.length + l2.length := by
          rw [hR]
          simp
        omega
      · rw [if_neg hclosed]
        have hlen4 : ((grid_neighbors width height cur.position).foldl
            (expandNeighbor goal (fun _ => true) (fun _ => 0) (fun _ => 0)
              (insert cur.position closed) cur) ([], gmap)).1.length ≤ 4 := by
          refine le_trans (expandZ_foldl_length goal (insert cur.position closed)
            cur _ ([], gmap)) ?_
          simpa using grid_neighbors_length_le width height cur.position
        have hcard : (insert cur.position closed).card = closed.card + 1 :=
          Finset.card_insert_of_not_mem hclosed
        have hcsub : (insert cur.position closed).card ≤
            (gridUniverse width height).card :=
          Finset.card_le_card (Finset.insert_subset_iff.mpr
            ⟨hinv.2.1 cur (popMin_mem hpop), hinv.2.2.1⟩)
        obtain ⟨l1, l2, hOP, hR⟩ := popMin_split hpop
        have h1 : open_set.length = l1.length + (l2.length + 1) := by
          rw [hOP]
          simp
        have h2 : rest.length = l1.length + l2.length := by
          rw [hR]
          simp
        refine ih _ _ _ (AStarInv_step hs hg hinv hpop hgoal hclosed) ?_
        simp only [List.length_append]
        omega

/-- The accumulated-cost list along a nonempty path starts with the
incoming accumulator. -/
theorem g_along_head (tc rc : Pos → ℚ) (x : Pos) (rest : List Pos) (acc : ℚ) :
    (g_along tc rc (x :: rest) acc).head? = some acc := by
  cases rest <;> rfl

/-- With nonnegative terrain and risk penalties the accumulated g-cost
is monotonically non-decreasing along any path. -/
theorem g_along_chain_le (tc rc : Pos → ℚ) (htc : ∀ p, 0 ≤ tc p)
    (hrc : ∀ p, 0 ≤ rc p) :
    ∀ (l : List Pos) (acc : ℚ),
      List.Chain' (fun a b => a ≤ b) (g_along tc rc l acc) := by
  intro l
  induction l with
  | nil =>
    intro acc
    exact List.chain'_nil
  | cons a t ih =>
    intro acc
    cases t with
    | nil => exact List.chain'_singleton _
    | cons b t2 =>
      show List.Chain' _ (acc :: g_along tc rc (b :: t2) (acc + 1 + tc b + rc b))
      rw [List.chain'_cons']
      constructor
      · intro y hy
        rw [g_along_head, Option.mem_some_iff] at hy
        obtain rfl := hy
        have h1 := htc b
        have h2 := hrc b
        linarith
      · exact ih _

/-- Claim C5.  On a grid where every cell is passable and the injected
terrain-cost and risk-cost callbacks return 0 everywhere, astar_search
with the standard fuel returns a finite result: a path whose cost is
the manhattan distance from start to goal, whose length is the true
shortest grid path length (manhattan distance plus one cell), whose
endpoints are the start and the goal, whose consecutive cells are
grid neighbors, and whose accumulated g-cost is monotonically
non-decreasing along the path. -/
theorem c5_astar_zero_cost_grid_optimal (width height : Int) (start goal : Pos)
    (hs : inBounds width height start) (hg : inBounds width height goal) :
    ∃ path : List Pos,
      astar_search (gridFuel width height) start goal (fun _ => true)
        (grid_neighbors width height) (fun _ => 0) (fun _ => 0) =
        (path, some ((md start goal : ℕ) : ℚ)) ∧
      path.length = md start goal + 1 ∧
      path.head? = some start ∧ path.getLast? = some goal ∧
      chainStep (grid_neighbors width height) path = true ∧
      List.Chain' (fun a b => a ≤ b)
        (g_along (fun _ => 0) (fun _ => 0) path 0) := by
  have h0 := astarZ_run hs hg (gridFuel width height)
    [{ position := start, g_cost := 0, h_cost := manhattan_distance start goal,
       path := [start] }] ∅ (fun p => if p = start then some 0 else none)
    (AStarInv_init hs)
    (by
      simp only [List.length_cons, List.length_nil, Finset.card_empty,
        Nat.sub_zero, gridUniverse_card, gridFuel]
      omega)
  obtain ⟨path, heq, hh, hl, hc, hlen⟩ := h0
  refine ⟨path, ?_, hlen, hh, hl, hc,
    g_along_chain_le _ _ (fun p => le_refl 0) (fun p => le_refl 0) path 0⟩
  unfold astar_search
  simp only [Bool.not_true, Bool.false_eq_true, if_false]
  exact heq

/-- Claim C5 witness: the 3 by 3 grid from (0,0) to (2,1), where the
manhattan distance is 3. -/
theorem c5_astar_zero_cost_grid_optimal_witness :
    ∃ path : List Pos,
      astar_search (gridFuel 3 3) ((0 : Int), (0 : Int)) ((2 : Int), (1 : Int))
        (fun _ => true) (grid_neighbors 3 3) (fun _ => 0) (fun _ => 0) =
        (path, some ((md ((0 : Int), (0 : Int)) ((2 : Int), (1 : Int)) : ℕ) : ℚ)) ∧
      path.length = md ((0 : Int), (0 : Int)) ((2 : Int), (1 : Int)) + 1 ∧
      path.head? = some ((0 : Int), (0 : Int)) ∧
      path.getLast? = some ((2 : Int), (1 : Int)) ∧
      chainStep (grid_neighbors 3 3) path = true ∧
      List.Chain' (fun a b => a ≤ b)
        (g_along (fun _ => 0) (fun _ => 0) path 0) :=
  c5_astar_zero_cost_grid_optimal 3 3 ((0 : Int), (0 : Int))
    ((2 : Int), (1 : Int)) (by decide) (by decide)
